import Mathlib

/-!
# qttp `HttpServer`: the request-dispatch core

A shallow embedding of `src/qttp/httpserver.cpp`: the action and route
registries, the pre/post processor chain, the default event callback and the
event filter that delivers requests to the installed callback.

Conventions of the embedding

* A `std::shared_ptr<T>` or a raw pointer is an `Option T`; `none` is the
  null pointer.  Dereferencing a null pointer is undefined behaviour and is
  modelled by the function returning `none`.
* The three registries are associative containers keyed by `std::string`
  (`find`, `end`, `operator[]`); they are association lists here.
* Handlers, callbacks and processors are functions on the per-request
  context `HttpData`.  They may change the payload, the control flag and the
  finished flag at will; they do not change the registries.
* Every invocation made by the server is appended to a trace (`Run.trace`),
  so that "is invoked", "is not invoked" and "before" are statements about
  that list.
-/

namespace qttp

/-! ## External collaborators -/

/-- A JSON value as stored in a `QJsonObject` (scalars only; numbers are
restricted to integers). -/
inductive QJsonValue where
  | null : QJsonValue
  | bool (b : Bool) : QJsonValue
  | number (n : Int) : QJsonValue
  | string (s : String) : QJsonValue
  deriving DecidableEq, Repr

/-- A `QJsonObject`: key/value pairs, kept sorted by key, one pair per key. -/
abbrev QJsonObject := List (String × QJsonValue)

/-- The assignment `json[key] = value` of `QJsonObject`: replaces the value of
an existing key, inserts a new key at its sorted position (keys are compared
character by character). -/
def QJsonObject.set : QJsonObject → String → QJsonValue → QJsonObject
  | [], key, value => [(key, value)]
  | (k, v) :: rest, key, value =>
    if key = k then (key, value) :: rest
    else if key.toList < k.toList then (key, value) :: (k, v) :: rest
    else (k, v) :: QJsonObject.set rest key value

/-- The call `json.isEmpty()` of `QJsonObject`. -/
def QJsonObject.isEmpty (json : QJsonObject) : Bool :=
  match json with
  | [] => true
  | _ :: _ => false

/-- The part of `native::http::request` the server reads: `url().path()`. -/
structure request where
  path : String
  deriving DecidableEq, Repr

/-- The part of `native::http::response` that matters to the server: whether
writing and closing it succeeds. -/
structure response where
  writable : Bool
  deriving DecidableEq, Repr

/-! ## The per-request context -/

/-- The class `HttpData`: request and response handles, the JSON payload, the
control flag and the finished flag. -/
structure HttpData where
  request : Option request
  response : Option response
  json : QJsonObject
  controlFlag : Bool
  finished : Bool
  deriving DecidableEq, Repr

/-- Modelled from the spec: the constructor `HttpData(req, resp)` is declared
outside `httpserver.cpp`.  A context is created at dispatch start with an empty
payload, the control flag set to continue and the response not yet finished. -/
def HttpData.create (req : Option qttp.request) (resp : Option qttp.response) : HttpData :=
  { request := req, response := resp, json := [], controlFlag := true, finished := false }

/-- The accessor `HttpData::getControlFlag`. -/
def HttpData.getControlFlag (data : HttpData) : Bool := data.controlFlag

/-- The accessor `HttpData::getJson`. -/
def HttpData.getJson (data : HttpData) : QJsonObject := data.json

/-- The accessor `HttpData::isFinished`. -/
def HttpData.isFinished (data : HttpData) : Bool := data.finished

/-- Modelled from the spec: `HttpData::finishResponse` is declared outside
`httpserver.cpp`.  It writes the payload to the response and closes it, marks
the context finished, and reports whether the write succeeded (a missing
response handle counts as a failed write). -/
def HttpData.finishResponse (data : HttpData) : Bool × HttpData :=
  (match data.response with
   | some resp => resp.writable
   | none => false,
   { data with finished := true })

/-! ## Handlers and processors -/

/-- The type `std::function<void(HttpData& data)>`. -/
abbrev Callback := HttpData → HttpData

/-- The class `Action`: `getActionName()` and `onAction(data)`. -/
structure Action where
  getActionName : String
  onAction : Callback

/-- The class `Processor`: `preprocess(data)` and `postprocess(data)`. -/
structure Processor where
  preprocess : Callback
  postprocess : Callback

/-! ## Associative containers -/

/-- A `std::string`-keyed associative container. -/
abbrev StdMap (V : Type) := List (String × V)

/-- The lookup `m.find(key)`; `none` stands for `m.end()`. -/
def StdMap.find {V : Type} : StdMap V → String → Option V
  | [], _ => none
  | (k, v) :: rest, key => if k = key then some v else StdMap.find rest key

/-- The assignment `m[key] = value`: overwrites the entry of an existing key,
adds an entry for a new one. -/
def StdMap.assign {V : Type} : StdMap V → String → V → StdMap V
  | [], key, value => [(key, value)]
  | (k, v) :: rest, key, value =>
    if k = key then (key, value) :: rest else (k, v) :: StdMap.assign rest key value

/-! ## The server -/

/-- One invocation made by the server while it dispatches a request. -/
inductive Step where
  /-- The call `callback(data)` for entry `i` of `m_Preprocessors`. -/
  | preprocessor (i : Nat) : Step
  /-- The call `processor->preprocess(data)` for entry `i` of `m_Processors`. -/
  | preprocess (i : Nat) : Step
  /-- The call `callback->second(data)` for the entry of `m_ActionCallbacks` under `name`. -/
  | actionCallback (name : String) : Step
  /-- The call `action->second->onAction(data)` for the entry of `m_Actions` under `name`. -/
  | onAction (name : String) : Step
  /-- The built-in fallback `json["error"] = "Invalid request"`. -/
  | invalidRequest : Step
  /-- The call `p->postprocess(data)` for entry `i` of `m_Processors`. -/
  | postprocess (i : Nat) : Step
  /-- The call `callback(data)` for entry `i` of `m_Postprocessors`. -/
  | postprocessor (i : Nat) : Step
  /-- The call `data.finishResponse()` of the engine, with the payload it writes. -/
  | finishResponse (body : QJsonObject) : Step
  /-- The warning `Failed to finish response`. -/
  | logWarn : Step
  deriving DecidableEq, Repr

/-- The context of a request together with the invocations made so far. -/
structure Run where
  data : HttpData
  trace : List Step
  deriving DecidableEq, Repr

/-- Invoke `f` on the context and record the invocation. -/
def Run.invoke (r : Run) (step : Step) (f : Callback) : Run :=
  { data := f r.data, trace := r.trace ++ [step] }

/-- The type `function<void(request*, response*)>` of an event callback: what it
does to the request, or `none` when it dereferences a null pointer. -/
abbrev EventCallback := Option qttp.request → Option qttp.response → Option Run

/-- The registries of `HttpServer` (the configuration objects play no part in
dispatch and are left out).  The defaults are those of the constructor;
`m_EventCallback` is `none` while the callback installed by the constructor,
`defaultEventCallback()`, is in place. -/
structure HttpServer where
  m_EventCallback : Option EventCallback := none
  m_Actions : StdMap (Option Action) := []
  m_ActionCallbacks : StdMap Callback := []
  m_Routes : StdMap String := []
  m_Processors : List (Option Processor) := []
  m_Preprocessors : List Callback := []
  m_Postprocessors : List Callback := []

/-- The loop `for(auto& callback : list) callback(data);`, entries numbered from `i`. -/
def runCallbacks (label : Nat → Step) : Nat → List Callback → Run → Run
  | _, [], r => r
  | i, callback :: rest, r => runCallbacks label (i + 1) rest (r.invoke (label i) callback)

/-- The loop over `m_Processors` of `performPreprocessing`, entries numbered from `i`:
a null entry is skipped. -/
def runPreprocess : Nat → List (Option Processor) → Run → Run
  | _, [], r => r
  | i, some processor :: rest, r =>
    runPreprocess (i + 1) rest (r.invoke (Step.preprocess i) processor.preprocess)
  | i, none :: rest, r => runPreprocess (i + 1) rest r

/-- The loop from `m_Processors.rbegin()` to `m_Processors.rend()` of
`performPostprocessing`, entries numbered from `i`: the entries after the first
are visited before it, a null entry is skipped. -/
def runPostprocess : Nat → List (Option Processor) → Run → Run
  | _, [], r => r
  | i, some p :: rest, r =>
    (runPostprocess (i + 1) rest r).invoke (Step.postprocess i) p.postprocess
  | i, none :: rest, r => runPostprocess (i + 1) rest r

/-- The method `HttpServer::performPreprocessing`. -/
def HttpServer.performPreprocessing (s : HttpServer) (r : Run) : Run :=
  runPreprocess 0 s.m_Processors (runCallbacks Step.preprocessor 0 s.m_Preprocessors r)

/-- The method `HttpServer::performPostprocessing`. -/
def HttpServer.performPostprocessing (s : HttpServer) (r : Run) : Run :=
  runCallbacks Step.postprocessor 0 s.m_Postprocessors (runPostprocess 0 s.m_Processors r)

/-- The statement `json["error"] = "Invalid request"` on the payload of the context. -/
def invalidRequest (data : HttpData) : HttpData :=
  { data with json := data.json.set "error" (QJsonValue.string "Invalid request") }

/-- The routing part of the default event callback (the `if`/`else` on the
route lookup): route, action, preprocessing, handler, postprocessing.  The
result is `none` when a null action is dereferenced. -/
def HttpServer.dispatch (s : HttpServer) (path : String) (data : Run) : Option Run :=
  match s.m_Routes.find path with
  | some actionName =>
    match s.m_ActionCallbacks.find actionName with
    | some callback =>
      let r1 := s.performPreprocessing data
      let r2 := if r1.data.getControlFlag then r1.invoke (Step.actionCallback actionName) callback else r1
      some (if r2.data.getControlFlag then s.performPostprocessing r2 else r2)
    | none =>
      match s.m_Actions.find actionName with
      | some (some action) =>
        let r1 := s.performPreprocessing data
        let r2 := if r1.data.getControlFlag then r1.invoke (Step.onAction actionName) action.onAction else r1
        some (if r2.data.getControlFlag then s.performPostprocessing r2 else r2)
      | _ => some data
  | none =>
    let r1 := s.performPreprocessing data
    if r1.data.getControlFlag then
      match s.m_ActionCallbacks.find "" with
      | some callback =>
        some (s.performPostprocessing (r1.invoke (Step.actionCallback "") callback))
      | none =>
        match s.m_Actions.find "" with
        | some (some action) =>
          some (s.performPostprocessing (r1.invoke (Step.onAction "") action.onAction))
        | some none => none
        | none => some (s.performPostprocessing (r1.invoke Step.invalidRequest invalidRequest))
    else some r1

/-- The last statement of the default event callback: finish the response when
the payload is not empty and the response is not finished yet, and warn when
that fails. -/
def finalize (r : Run) : Run :=
  if !r.data.getJson.isEmpty && !r.data.isFinished then
    let res := r.data.finishResponse
    let r1 : Run := { data := res.2, trace := r.trace ++ [Step.finishResponse r.data.getJson] }
    if !res.1 then { r1 with trace := r1.trace ++ [Step.logWarn] } else r1
  else r

/-- The function object returned by `HttpServer::defaultEventCallback`, applied
to a request and a response handle.  The result is `none` when a null pointer
is dereferenced (the request handle, or a null default action). -/
def HttpServer.defaultEventCallback (s : HttpServer) (req : Option qttp.request)
    (resp : Option qttp.response) : Option Run :=
  match req with
  | none => none
  | some rq =>
    match s.dispatch rq.path { data := HttpData.create req resp, trace := [] } with
    | some r => some (finalize r)
    | none => none

/-- The method `HttpServer::addAction(std::shared_ptr<Action>&)`; `none` when
the action is null (its name is read through the pointer). -/
def HttpServer.addAction (s : HttpServer) (action : Option Action) : Option (Bool × HttpServer) :=
  match action with
  | none => none
  | some a =>
    let containsKey := (s.m_Actions.find a.getActionName).isSome
    some (!containsKey, { s with m_Actions := s.m_Actions.assign a.getActionName action })

/-- The method `HttpServer::addAction(const string&, function<void(HttpData&)>)`. -/
def HttpServer.addActionCallback (s : HttpServer) (actionName : String) (callback : Callback) :
    Bool × HttpServer :=
  let containsKey := (s.m_ActionCallbacks.find actionName).isSome
  (!containsKey, { s with m_ActionCallbacks := s.m_ActionCallbacks.assign actionName callback })

/-- The method `HttpServer::registerRoute`. -/
def HttpServer.registerRoute (s : HttpServer) (actionName routeName : String) : Bool × HttpServer :=
  let containsKey := (s.m_Routes.find routeName).isSome
  (!containsKey, { s with m_Routes := s.m_Routes.assign routeName actionName })

/-- The method `HttpServer::addProcessor`. -/
def HttpServer.addProcessor (s : HttpServer) (processor : Option Processor) : Bool × HttpServer :=
  match processor with
  | none => (false, s)
  | some _ => (true, { s with m_Processors := s.m_Processors ++ [processor] })

/-- The method `HttpServer::addPreprocessor`. -/
def HttpServer.addPreprocessor (s : HttpServer) (callback : Callback) : HttpServer :=
  { s with m_Preprocessors := s.m_Preprocessors ++ [callback] }

/-- The method `HttpServer::addPostprocessor`. -/
def HttpServer.addPostprocessor (s : HttpServer) (callback : Callback) : HttpServer :=
  { s with m_Postprocessors := s.m_Postprocessors ++ [callback] }

/-- The method `HttpServer::setEventCallback`. -/
def HttpServer.setEventCallback (s : HttpServer) (eventCallback : EventCallback) : HttpServer :=
  { s with m_EventCallback := some eventCallback }

/-! ## Event delivery -/

/-- The value `QEvent::None` of `QEvent::Type`. -/
def QEvent.None : Nat := 0

/-- The class `HttpEvent`: the pair of handles returned by `getData()`. -/
structure HttpEvent where
  getData : Option qttp.request × Option qttp.response
  deriving DecidableEq, Repr

/-- A `QEvent` as `eventFilter` sees it: its `type()`, and the `HttpEvent` that
`dynamic_cast` finds in it, if it is one. -/
structure QEvent where
  type : Nat
  httpEvent : Option HttpEvent
  deriving DecidableEq, Repr

/-- What a call of `eventFilter` did: its return value, whether it logged the
warning `Request or response is NULL`, and the calls of `m_EventCallback` it
made, each with its two handles and what the callback did. -/
structure Filtered where
  result : Bool
  warned : Bool
  calls : List (Option qttp.request × Option qttp.response × Run)
  deriving DecidableEq, Repr

/-- The call `m_EventCallback(req, resp)`: the callback installed last, which is
the default event callback until `setEventCallback` replaces it. -/
def HttpServer.eventCallback (s : HttpServer) : EventCallback :=
  match s.m_EventCallback with
  | some eventCallback => eventCallback
  | none => s.defaultEventCallback

/-- The method `HttpServer::eventFilter`, applied to an event pointer.  The result
is `none` when the callback dereferences a null pointer. -/
def HttpServer.eventFilter (s : HttpServer) (event : Option QEvent) : Option Filtered :=
  match event with
  | none => some { result := false, warned := false, calls := [] }
  | some ev =>
    if ev.type ≠ QEvent.None then some { result := false, warned := false, calls := [] }
    else
      match ev.httpEvent with
      | none => some { result := false, warned := false, calls := [] }
      | some httpEvent =>
        let req := httpEvent.getData.1
        let resp := httpEvent.getData.2
        let warned := req.isNone || resp.isNone
        match s.eventCallback req resp with
        | some run => some { result := true, warned := warned, calls := [(req, resp, run)] }
        | none => none

/-! ## Registration sequences -/

/-- One call of the registration interface. -/
inductive Registration where
  | addAction (action : Option Action) : Registration
  | addActionCallback (actionName : String) (callback : Callback) : Registration
  | registerRoute (actionName routeName : String) : Registration
  | addProcessor (processor : Option Processor) : Registration
  | addPreprocessor (callback : Callback) : Registration
  | addPostprocessor (callback : Callback) : Registration
  | setEventCallback (eventCallback : EventCallback) : Registration

/-- The server after one registration call; `none` when the call dereferences a
null pointer (`addAction` with a null action). -/
def HttpServer.register (s : HttpServer) : Registration → Option HttpServer
  | Registration.addAction action => (s.addAction action).map Prod.snd
  | Registration.addActionCallback actionName callback =>
    some (s.addActionCallback actionName callback).2
  | Registration.registerRoute actionName routeName => some (s.registerRoute actionName routeName).2
  | Registration.addProcessor processor => some (s.addProcessor processor).2
  | Registration.addPreprocessor callback => some (s.addPreprocessor callback)
  | Registration.addPostprocessor callback => some (s.addPostprocessor callback)
  | Registration.setEventCallback eventCallback => some (s.setEventCallback eventCallback)

/-- The server after a sequence of registration calls, first to last. -/
def HttpServer.registerAll (s : HttpServer) : List Registration → Option HttpServer
  | [] => some s
  | call :: rest =>
    match s.register call with
    | some s1 => s1.registerAll rest
    | none => none

/-- The processor a registration call appends to `m_Processors`, if any. -/
def Registration.processor : Registration → Option (Option Processor)
  | Registration.addProcessor (some p) => some (some p)
  | _ => none

/-! ## Vocabulary of the statements -/

/-- The stage of the pipeline an invocation belongs to. -/
inductive Stage where
  | PREPROCESS : Stage
  | HANDLE : Stage
  | POSTPROCESS : Stage
  | FINALIZE : Stage
  deriving DecidableEq, Repr

/-- The stage of each invocation. -/
def Step.stage : Step → Stage
  | Step.preprocessor _ => Stage.PREPROCESS
  | Step.preprocess _ => Stage.PREPROCESS
  | Step.actionCallback _ => Stage.HANDLE
  | Step.onAction _ => Stage.HANDLE
  | Step.invalidRequest => Stage.HANDLE
  | Step.postprocess _ => Stage.POSTPROCESS
  | Step.postprocessor _ => Stage.POSTPROCESS
  | Step.finishResponse _ => Stage.FINALIZE
  | Step.logWarn => Stage.FINALIZE

/-- The invocations of the processor loop of `performPreprocessing`: the
non-null entries in list order, entries numbered from `i`. -/
def preprocessSteps : Nat → List (Option Processor) → List Step
  | _, [] => []
  | i, some _ :: rest => Step.preprocess i :: preprocessSteps (i + 1) rest
  | i, none :: rest => preprocessSteps (i + 1) rest

/-- The invocations of the processor loop of `performPostprocessing`: the
non-null entries in reverse list order, entries numbered from `i`. -/
def postprocessSteps : Nat → List (Option Processor) → List Step
  | _, [] => []
  | i, some _ :: rest => postprocessSteps (i + 1) rest ++ [Step.postprocess i]
  | i, none :: rest => postprocessSteps (i + 1) rest

/-- The invocations made by `performPreprocessing`. -/
def HttpServer.preSteps (s : HttpServer) : List Step :=
  (List.range' 0 s.m_Preprocessors.length).map Step.preprocessor ++
    preprocessSteps 0 s.m_Processors

/-- The invocations made by `performPostprocessing`. -/
def HttpServer.postSteps (s : HttpServer) : List Step :=
  postprocessSteps 0 s.m_Processors ++
    (List.range' 0 s.m_Postprocessors.length).map Step.postprocessor

/-- Apply `preprocess` of a processor entry; a null entry does nothing. -/
def applyPreprocess (data : HttpData) (processor : Option Processor) : HttpData :=
  match processor with
  | some p => p.preprocess data
  | none => data

/-- Apply `postprocess` of a processor entry; a null entry does nothing. -/
def applyPostprocess (processor : Option Processor) (data : HttpData) : HttpData :=
  match processor with
  | some p => p.postprocess data
  | none => data

/-- The context `performPreprocessing` leaves behind: the preprocessor callbacks
applied first to last, then `preprocess` of the processors first to last. -/
def HttpServer.preData (s : HttpServer) (data : HttpData) : HttpData :=
  s.m_Processors.foldl applyPreprocess (s.m_Preprocessors.foldl (fun d c => c d) data)

/-- The context `performPostprocessing` leaves behind: `postprocess` of the
processors last to first, then the postprocessor callbacks first to last. -/
def HttpServer.postData (s : HttpServer) (data : HttpData) : HttpData :=
  s.m_Postprocessors.foldl (fun d c => c d) (s.m_Processors.foldr applyPostprocess data)

/-- The invocations made by the last statement of the default event callback. -/
def finalizeSteps (data : HttpData) : List Step :=
  (finalize { data := data, trace := [] }).trace

/-- The handler the default event callback resolves for a path, as the
invocation it would record: the callback or else the non-null object under the
routed action name; for a path without a route the callback or else the object
under `""`, or else the built-in fallback. -/
def HttpServer.handlerStep (s : HttpServer) (path : String) : Option Step :=
  match s.m_Routes.find path with
  | some actionName =>
    match s.m_ActionCallbacks.find actionName with
    | some _ => some (Step.actionCallback actionName)
    | none =>
      match s.m_Actions.find actionName with
      | some (some _) => some (Step.onAction actionName)
      | _ => none
  | none =>
    match s.m_ActionCallbacks.find "" with
    | some _ => some (Step.actionCallback "")
    | none =>
      match s.m_Actions.find "" with
      | some _ => some (Step.onAction "")
      | none => some Step.invalidRequest

/-- The payload `{"error": "Invalid request"}`. -/
def invalidRequestBody : QJsonObject := [("error", QJsonValue.string "Invalid request")]

/-- Whether an invocation is a call of `finishResponse`. -/
def Step.isFinishResponse : Step → Bool
  | Step.finishResponse _ => true
  | _ => false

/-- The place of a stage in the pipeline order PREPROCESS, HANDLE, POSTPROCESS,
FINALIZE. -/
def Stage.rank : Stage → Nat
  | Stage.PREPROCESS => 0
  | Stage.HANDLE => 1
  | Stage.POSTPROCESS => 2
  | Stage.FINALIZE => 3

/-! ## Concrete servers and handlers used as examples -/

/-- A callback that sets `key` to `true` in the payload. -/
def markKey (key : String) : Callback :=
  fun data => { data with json := data.json.set key (QJsonValue.bool true) }

/-- A callback that sets the control flag. -/
def setControlFlag (flag : Bool) : Callback :=
  fun data => { data with controlFlag := flag }

/-- A callback that marks the response finished. -/
def markFinished : Callback :=
  fun data => { data with finished := true }

/-- A server with route `/a` to `act1`, and both a callback and an object
registered under `act1`. -/
def serverBothForms : HttpServer :=
  { m_Routes := [("/a", "act1")],
    m_ActionCallbacks := [("act1", markKey "ok")],
    m_Actions := [("act1", some { getActionName := "act1", onAction := markKey "object" })] }

/-- A server with two preprocessor callbacks, two processors and two
postprocessor callbacks, each leaving its mark in the payload. -/
def serverChain : HttpServer :=
  { m_Preprocessors := [markKey "c1", markKey "c2"],
    m_Processors := [some { preprocess := markKey "p1", postprocess := markKey "x1" },
                     some { preprocess := markKey "p2", postprocess := markKey "x2" }],
    m_Postprocessors := [markKey "q1", markKey "q2"] }

/-- A server without routes or default action whose first preprocessor callback
aborts and whose second one resumes. -/
def serverAbortResume : HttpServer :=
  { m_Preprocessors := [setControlFlag false, setControlFlag true] }

/-- A server without routes or default action whose preprocessor callback aborts. -/
def serverAbort : HttpServer :=
  { m_Preprocessors := [setControlFlag false],
    m_Postprocessors := [markKey "q1"] }

/-- A server without routes or default action whose processor marks the
payload before and after the handler. -/
def serverMarking : HttpServer :=
  { m_Processors := [some { preprocess := markKey "p1", postprocess := markKey "x1" }] }

/-- A server without routes whose default action is an object, with a chain
around it. -/
def serverDefaultObject : HttpServer :=
  { m_Actions := [("", some { getActionName := "", onAction := markKey "default" })],
    m_Preprocessors := [markKey "c1"],
    m_Processors := [some { preprocess := markKey "p1", postprocess := markKey "x1" }],
    m_Postprocessors := [markKey "q1"] }

/-- A server with route `/a` to `act1` whose callback writes the payload and
marks the response finished. -/
def serverFinishing : HttpServer :=
  { m_Routes := [("/a", "act1")],
    m_ActionCallbacks := [("act1", fun data => markFinished (markKey "ok" data))] }

/-- A server whose route `/a` names an action `ghost` that is registered in
neither form, with a default callback under `""`. -/
def serverDangling : HttpServer :=
  { m_Routes := [("/a", "ghost")],
    m_ActionCallbacks := [("", markKey "default")] }

/-- A callback that writes `key` to the payload and then sets the control flag
to abort. -/
def markAndAbort (key : String) : Callback :=
  fun data => setControlFlag false (markKey key data)

/-- A server whose handler aborts, registered both under `act1` (routed from
`/a`) and as the default action under `""`, with one postprocessor callback. -/
def serverHandlerAborts : HttpServer :=
  { m_Routes := [("/a", "act1")],
    m_ActionCallbacks := [("act1", markAndAbort "handled"), ("", markAndAbort "handled")],
    m_Postprocessors := [markKey "q1"] }

/-- The scenario of the specification: route `/a` to `act1`, and `act1` registered
as a callback that sets `ok` to `true` in the payload. -/
def serverScenario : HttpServer :=
  { m_Routes := [("/a", "act1")],
    m_ActionCallbacks := [("act1", markKey "ok")] }

/-- A sequence of registration calls: a processor, a null processor, a route and
a second processor. -/
def callsTwoProcessors : List Registration :=
  [Registration.addProcessor (some { preprocess := markKey "p1", postprocess := markKey "x1" }),
   Registration.addProcessor none,
   Registration.registerRoute "act1" "/a",
   Registration.addProcessor (some { preprocess := markKey "p2", postprocess := markKey "x2" })]

/-- The server `callsTwoProcessors` leaves when made on a new server. -/
def serverTwoProcessors : HttpServer :=
  { m_Routes := [("/a", "act1")],
    m_Processors := [some { preprocess := markKey "p1", postprocess := markKey "x1" },
                     some { preprocess := markKey "p2", postprocess := markKey "x2" }] }

/-- A sequence of registration calls that leaves a default object action under
`""` and no callback there. -/
def callsDefaultObject : List Registration :=
  [Registration.addAction (some { getActionName := "", onAction := markKey "default" }),
   Registration.addPostprocessor (markKey "q1")]

/-- An event callback that touches neither handle. -/
def ignoreHandles : EventCallback :=
  fun req resp => some { data := HttpData.create req resp, trace := [] }

/-- A server whose first preprocessor callback and whose first processor (in
`postprocess`) abort, each followed by further steps of the same stage. -/
def serverAbortsEarly : HttpServer :=
  { m_Preprocessors := [setControlFlag false, markKey "c2"],
    m_Processors := [some { preprocess := markKey "p1", postprocess := markKey "x1" },
                     none,
                     some { preprocess := markKey "p2", postprocess := setControlFlag false }],
    m_Postprocessors := [markKey "q1"] }

/-- An event of the type `eventFilter` accepts, carrying the two handles. -/
def httpEventOf (req : Option qttp.request) (resp : Option qttp.response) : QEvent :=
  { type := QEvent.None, httpEvent := some { getData := (req, resp) } }

/-! ## Associative containers: lookup after assignment -/

theorem StdMap.find_assign_self {V : Type} (m : StdMap V) (key : String) (value : V) :
    (m.assign key value).find key = some value := by
  induction m with
  | nil => simp [StdMap.assign, StdMap.find]
  | cons e rest ih =>
    obtain ⟨k, v⟩ := e
    by_cases hk : k = key
    · simp [StdMap.assign, StdMap.find, hk]
    · simp [StdMap.assign, StdMap.find, hk, ih]

theorem StdMap.find_assign_of_ne {V : Type} (m : StdMap V) (key other : String) (value : V)
    (h : other ≠ key) : (m.assign key value).find other = m.find other := by
  induction m with
  | nil => simp [StdMap.assign, StdMap.find, Ne.symm h]
  | cons e rest ih =>
    obtain ⟨k, v⟩ := e
    by_cases hk : k = key
    · subst hk
      simp [StdMap.assign, StdMap.find, Ne.symm h]
    · by_cases ho : k = other
      · subst ho
        simp [StdMap.assign, StdMap.find, h]
      · simp [StdMap.assign, StdMap.find, hk, ho, ih]

/-! ## The processor chain: what it invokes and what it computes -/

theorem Run.invoke_trace (r : Run) (step : Step) (f : Callback) :
    (r.invoke step f).trace = r.trace ++ [step] := rfl

theorem Run.invoke_data (r : Run) (step : Step) (f : Callback) :
    (r.invoke step f).data = f r.data := rfl

theorem runCallbacks_eq (label : Nat → Step) (cs : List Callback) :
    ∀ (i : Nat) (r : Run), runCallbacks label i cs r =
      { data := cs.foldl (fun d c => c d) r.data,
        trace := r.trace ++ (List.range' i cs.length).map label } := by
  induction cs with
  | nil => intro i r; simp [runCallbacks]
  | cons c cs ih =>
    intro i r
    simp [runCallbacks, ih, Run.invoke, List.range'_succ]

theorem runPreprocess_eq (ps : List (Option Processor)) :
    ∀ (i : Nat) (r : Run), runPreprocess i ps r =
      { data := ps.foldl applyPreprocess r.data, trace := r.trace ++ preprocessSteps i ps } := by
  induction ps with
  | nil => intro i r; simp [runPreprocess, preprocessSteps]
  | cons p ps ih =>
    intro i r
    cases p with
    | none => simp [runPreprocess, preprocessSteps, ih, applyPreprocess]
    | some p => simp [runPreprocess, preprocessSteps, ih, applyPreprocess, Run.invoke]

theorem runPostprocess_eq (ps : List (Option Processor)) :
    ∀ (i : Nat) (r : Run), runPostprocess i ps r =
      { data := ps.foldr applyPostprocess r.data, trace := r.trace ++ postprocessSteps i ps } := by
  induction ps with
  | nil => intro i r; simp [runPostprocess, postprocessSteps]
  | cons p ps ih =>
    intro i r
    cases p with
    | none => simp [runPostprocess, postprocessSteps, ih, applyPostprocess]
    | some p => simp [runPostprocess, postprocessSteps, ih, applyPostprocess, Run.invoke]

theorem HttpServer.performPreprocessing_eq (s : HttpServer) (r : Run) :
    s.performPreprocessing r = { data := s.preData r.data, trace := r.trace ++ s.preSteps } := by
  simp [HttpServer.performPreprocessing, runCallbacks_eq, runPreprocess_eq, HttpServer.preData,
    HttpServer.preSteps]

theorem HttpServer.performPostprocessing_eq (s : HttpServer) (r : Run) :
    s.performPostprocessing r = { data := s.postData r.data, trace := r.trace ++ s.postSteps } := by
  simp [HttpServer.performPostprocessing, runCallbacks_eq, runPostprocess_eq, HttpServer.postData,
    HttpServer.postSteps]

theorem preprocessSteps_stage (ps : List (Option Processor)) :
    ∀ (i : Nat) (st : Step), st ∈ preprocessSteps i ps → st.stage = Stage.PREPROCESS := by
  induction ps with
  | nil => intro i st h; simp [preprocessSteps] at h
  | cons p ps ih =>
    intro i st h
    cases p with
    | none => exact ih (i + 1) st (by simpa [preprocessSteps] using h)
    | some p =>
      simp only [preprocessSteps, List.mem_cons] at h
      rcases h with h | h
      · subst h; rfl
      · exact ih (i + 1) st h

theorem postprocessSteps_stage (ps : List (Option Processor)) :
    ∀ (i : Nat) (st : Step), st ∈ postprocessSteps i ps → st.stage = Stage.POSTPROCESS := by
  induction ps with
  | nil => intro i st h; simp [postprocessSteps] at h
  | cons p ps ih =>
    intro i st h
    cases p with
    | none => exact ih (i + 1) st (by simpa [postprocessSteps] using h)
    | some p =>
      simp only [postprocessSteps, List.mem_append, List.mem_singleton] at h
      rcases h with h | h
      · exact ih (i + 1) st h
      · subst h; rfl

theorem HttpServer.preSteps_stage (s : HttpServer) (st : Step) (h : st ∈ s.preSteps) :
    st.stage = Stage.PREPROCESS := by
  simp only [HttpServer.preSteps, List.mem_append, List.mem_map] at h
  rcases h with ⟨i, _, rfl⟩ | h
  · rfl
  · exact preprocessSteps_stage _ _ _ h

theorem HttpServer.postSteps_stage (s : HttpServer) (st : Step) (h : st ∈ s.postSteps) :
    st.stage = Stage.POSTPROCESS := by
  simp only [HttpServer.postSteps, List.mem_append, List.mem_map] at h
  rcases h with h | ⟨i, _, rfl⟩
  · exact postprocessSteps_stage _ _ _ h
  · rfl

theorem finalize_eq (r : Run) :
    finalize r =
      { data := (finalize { data := r.data, trace := [] }).data,
        trace := r.trace ++ finalizeSteps r.data } := by
  simp only [finalize, finalizeSteps]
  split <;> [split; skip] <;> simp

theorem finalize_json (r : Run) : (finalize r).data.json = r.data.json := by
  simp only [finalize, HttpData.finishResponse]
  split <;> [split; skip] <;> rfl

theorem finalizeSteps_stage (data : HttpData) (st : Step) (h : st ∈ finalizeSteps data) :
    st.stage = Stage.FINALIZE := by
  simp only [finalizeSteps, finalize] at h
  split at h <;> [split at h; skip] <;> simp at h
  · rcases h with rfl | rfl <;> rfl
  · subst h; rfl

theorem preprocessSteps_map_some (ps : List Processor) :
    ∀ i : Nat, preprocessSteps i (ps.map some) = (List.range' i ps.length).map Step.preprocess := by
  induction ps with
  | nil => intro i; simp [preprocessSteps]
  | cons p ps ih => intro i; simp [preprocessSteps, ih, List.range'_succ]

theorem postprocessSteps_map_some (ps : List Processor) :
    ∀ i : Nat, postprocessSteps i (ps.map some) =
      ((List.range' i ps.length).map Step.postprocess).reverse := by
  induction ps with
  | nil => intro i; simp [postprocessSteps]
  | cons p ps ih => intro i; simp [postprocessSteps, ih, List.range'_succ]

theorem foldl_applyPreprocess_map_some (ps : List Processor) :
    ∀ d : HttpData, (ps.map some).foldl applyPreprocess d = ps.foldl (fun d p => p.preprocess d) d := by
  induction ps with
  | nil => intro d; rfl
  | cons p ps ih => intro d; simp [applyPreprocess, ih]

theorem foldr_applyPostprocess_map_some (ps : List Processor) (d : HttpData) :
    (ps.map some).foldr applyPostprocess d = ps.foldr (fun p d => p.postprocess d) d := by
  induction ps with
  | nil => rfl
  | cons p ps ih => simp [applyPostprocess, ih]

/-! ## The default event callback -/

theorem HttpServer.dispatch_handle (s : HttpServer) (path : String) (r0 r : Run)
    (h : s.dispatch path r0 = some r) (st : Step) (hst : st ∈ r.trace)
    (hstage : st.stage = Stage.HANDLE) : st ∈ r0.trace ∨ s.handlerStep path = some st := by
  have hpre : ∀ x ∈ s.preSteps, x.stage = Stage.PREPROCESS := s.preSteps_stage
  have hpost : ∀ x ∈ s.postSteps, x.stage = Stage.POSTPROCESS := s.postSteps_stage
  unfold HttpServer.dispatch at h
  unfold HttpServer.handlerStep
  simp only [HttpServer.performPreprocessing_eq, HttpServer.performPostprocessing_eq,
    Run.invoke, HttpData.getControlFlag] at h
  have key : ∀ x : Step, x ∈ s.preSteps ∨ x ∈ s.postSteps → x ≠ st := by
    intro x hx e
    subst e
    rcases hx with hx | hx
    · have := hpre _ hx; rw [hstage] at this; cases this
    · have := hpost _ hx; rw [hstage] at this; cases this
  have k1 : st ∉ s.preSteps := fun hx => key st (Or.inl hx) rfl
  have k2 : st ∉ s.postSteps := fun hx => key st (Or.inr hx) rfl
  repeat' split at h
  all_goals try cases h
  all_goals try simp only [List.mem_append, List.mem_singleton, k1, k2, or_false] at hst
  all_goals first
    | exact Or.inl hst
    | (rcases hst with hst | hst
       · exact Or.inl hst
       · subst hst; exact Or.inr (by simp [*]))

theorem HttpServer.defaultEventCallback_some (s : HttpServer) (req : qttp.request)
    (resp : Option qttp.response) (run : Run)
    (h : s.defaultEventCallback (some req) resp = some run) :
    ∃ r, s.dispatch req.path { data := HttpData.create (some req) resp, trace := [] } = some r ∧
      run = finalize r := by
  unfold HttpServer.defaultEventCallback at h
  simp only at h
  split at h
  · rename_i r hr
    exact ⟨r, hr, by simpa using h.symm⟩
  · cases h

theorem HttpServer.defaultEventCallback_handle (s : HttpServer) (req : qttp.request)
    (resp : Option qttp.response) (run : Run)
    (h : s.defaultEventCallback (some req) resp = some run) (st : Step) (hst : st ∈ run.trace)
    (hstage : st.stage = Stage.HANDLE) : s.handlerStep req.path = some st := by
  obtain ⟨r, hr, rfl⟩ := s.defaultEventCallback_some req resp run h
  rw [finalize_eq] at hst
  simp only [List.mem_append] at hst
  rcases hst with hst | hst
  · rcases s.dispatch_handle req.path _ r hr st hst hstage with h0 | h0
    · simp at h0
    · exact h0
  · have := finalizeSteps_stage _ _ hst
    rw [hstage] at this
    cases this

theorem HttpServer.handlerStep_onAction (s : HttpServer) (path name : String)
    (h : s.handlerStep path = some (Step.onAction name)) : s.m_ActionCallbacks.find name = none := by
  unfold HttpServer.handlerStep at h
  repeat' split at h
  all_goals (cases h <;> assumption)

theorem HttpServer.handlerStep_stage (s : HttpServer) (path : String) (st : Step)
    (h : s.handlerStep path = some st) : st.stage = Stage.HANDLE := by
  unfold HttpServer.handlerStep at h
  repeat' split at h
  all_goals (cases h <;> rfl)

/-- The shape of every run of the routing part: the invocations of
`performPreprocessing` or none, then the resolved handler or none, then the
invocations of `performPostprocessing` or none. -/
theorem HttpServer.dispatch_trace (s : HttpServer) (path : String) (r0 r : Run)
    (h : s.dispatch path r0 = some r) :
    ∃ pre hs post, r.trace = r0.trace ++ pre ++ hs ++ post ∧
      (pre = [] ∨ pre = s.preSteps) ∧
      (hs = [] ∨ ∃ st, s.handlerStep path = some st ∧ hs = [st]) ∧
      (post = [] ∨ post = s.postSteps) := by
  unfold HttpServer.dispatch at h
  unfold HttpServer.handlerStep
  simp only [HttpServer.performPreprocessing_eq, HttpServer.performPostprocessing_eq,
    Run.invoke, HttpData.getControlFlag] at h
  repeat' split at h
  all_goals try cases h
  all_goals first
    | (refine ⟨[], [], [], ?_, Or.inl rfl, Or.inl rfl, Or.inl rfl⟩
       simp only [List.append_nil]
       done)
    | (refine ⟨s.preSteps, [], [], ?_, Or.inr rfl, Or.inl rfl, Or.inl rfl⟩
       simp only [List.append_nil]
       done)
    | (refine ⟨s.preSteps, [_], [], (List.append_nil _).symm, Or.inr rfl, Or.inr ⟨_, ?_, rfl⟩,
         Or.inl rfl⟩
       simp only [*])
    | (refine ⟨s.preSteps, [_], s.postSteps, rfl, Or.inr rfl, Or.inr ⟨_, ?_, rfl⟩, Or.inr rfl⟩
       simp only [*])

theorem HttpServer.dispatch_stage (s : HttpServer) (path : String) (r0 r : Run)
    (h : s.dispatch path r0 = some r) (st : Step) (hst : st ∈ r.trace) :
    st ∈ r0.trace ∨ st.stage ≠ Stage.FINALIZE := by
  obtain ⟨pre, hs, post, ht, hpre, hhs, hpost⟩ := s.dispatch_trace path r0 r h
  rw [ht] at hst
  simp only [List.mem_append] at hst
  rcases hst with ((hst | hst) | hst) | hst
  · exact Or.inl hst
  · rcases hpre with rfl | rfl
    · cases hst
    · right; rw [s.preSteps_stage st hst]; decide
  · rcases hhs with rfl | ⟨x, hx, rfl⟩
    · cases hst
    · simp only [List.mem_singleton] at hst
      subst hst
      right; rw [s.handlerStep_stage path st hx]; decide
  · rcases hpost with rfl | rfl
    · cases hst
    · right; rw [s.postSteps_stage st hst]; decide

theorem filter_handle_eq_nil (l : List Step) (g : Stage) (hg : g ≠ Stage.HANDLE)
    (h : ∀ st ∈ l, st.stage = g) :
    l.filter (fun st => decide (st.stage = Stage.HANDLE)) = [] := by
  rw [List.filter_eq_nil_iff]
  intro st hst
  simp only [decide_eq_true_eq]
  rw [h st hst]
  exact hg

theorem countP_isFinishResponse_eq_zero (l : List Step)
    (h : ∀ st ∈ l, st.stage ≠ Stage.FINALIZE) : l.countP Step.isFinishResponse = 0 := by
  rw [List.countP_eq_zero]
  intro st hst hfin
  cases st <;> simp [Step.isFinishResponse] at hfin
  exact h _ hst rfl

theorem QJsonObject.isEmpty_iff (json : QJsonObject) : json.isEmpty = true ↔ json = [] := by
  cases json <;> simp [QJsonObject.isEmpty]

theorem finalizeSteps_eq (data : HttpData) :
    finalizeSteps data =
      if data.json ≠ [] ∧ data.finished = false then
        Step.finishResponse data.json :: (if data.finishResponse.1 then [] else [Step.logWarn])
      else [] := by
  unfold finalizeSteps finalize
  simp only [HttpData.getJson, HttpData.isFinished]
  by_cases hj : data.json = []
  · simp [hj, QJsonObject.isEmpty]
  · have he : QJsonObject.isEmpty data.json = false := by
      cases h : QJsonObject.isEmpty data.json
      · rfl
      · exact absurd ((QJsonObject.isEmpty_iff _).mp h) hj
    cases hf : data.finished
    · cases hw : data.finishResponse.1 <;> simp [hj, he, hf, hw]
    · simp [hj, he, hf]

/-- The four runs of the routing part: nothing; preprocessing only;
preprocessing and the resolved handler; preprocessing, the resolved handler and
postprocessing. -/
theorem HttpServer.dispatch_shape (s : HttpServer) (path : String) (r0 r : Run)
    (h : s.dispatch path r0 = some r) :
    r.trace = r0.trace ∨ r.trace = r0.trace ++ s.preSteps ∨
      (∃ st, s.handlerStep path = some st ∧ r.trace = r0.trace ++ s.preSteps ++ [st]) ∨
      (∃ st, s.handlerStep path = some st ∧
        r.trace = r0.trace ++ s.preSteps ++ [st] ++ s.postSteps) := by
  unfold HttpServer.dispatch at h
  unfold HttpServer.handlerStep
  simp only [HttpServer.performPreprocessing_eq, HttpServer.performPostprocessing_eq,
    Run.invoke, HttpData.getControlFlag] at h
  repeat' split at h
  all_goals try cases h
  all_goals first
    | exact Or.inl rfl
    | exact Or.inr (Or.inl rfl)
    | (refine Or.inr (Or.inr (Or.inl ⟨_, ?_, rfl⟩))
       simp only [*])
    | (refine Or.inr (Or.inr (Or.inr ⟨_, ?_, rfl⟩))
       simp only [*])

/-- When the control flag is true after preprocessing, the resolved handler is
invoked. -/
theorem HttpServer.dispatch_handler_mem (s : HttpServer) (path : String) (r0 r : Run)
    (h : s.dispatch path r0 = some r) (hflag : (s.preData r0.data).controlFlag = true)
    (st : Step) (hst : s.handlerStep path = some st) : st ∈ r.trace := by
  unfold HttpServer.dispatch at h
  unfold HttpServer.handlerStep at hst
  simp only [HttpServer.performPreprocessing_eq, HttpServer.performPostprocessing_eq,
    Run.invoke, HttpData.getControlFlag, hflag, if_true] at h
  repeat' split at h
  all_goals try cases h
  all_goals simp_all

theorem filter_handle_trace (s : HttpServer) (hs fin : List Step) (a b : List Step)
    (ha : a = [] ∨ a = s.preSteps) (hb : b = [] ∨ b = s.postSteps)
    (hhs : ∀ st ∈ hs, st.stage = Stage.HANDLE) (hfin : ∀ st ∈ fin, st.stage = Stage.FINALIZE) :
    (a ++ hs ++ b ++ fin).filter (fun st => decide (st.stage = Stage.HANDLE)) = hs := by
  have h1 : a.filter (fun st => decide (st.stage = Stage.HANDLE)) = [] := by
    rcases ha with rfl | rfl
    · rfl
    · exact filter_handle_eq_nil _ Stage.PREPROCESS (by decide) s.preSteps_stage
  have h2 : b.filter (fun st => decide (st.stage = Stage.HANDLE)) = [] := by
    rcases hb with rfl | rfl
    · rfl
    · exact filter_handle_eq_nil _ Stage.POSTPROCESS (by decide) s.postSteps_stage
  have h3 : fin.filter (fun st => decide (st.stage = Stage.HANDLE)) = [] :=
    filter_handle_eq_nil _ Stage.FINALIZE (by decide) hfin
  have h4 : hs.filter (fun st => decide (st.stage = Stage.HANDLE)) = hs := by
    rw [List.filter_eq_self]
    intro st hst
    simp [hhs st hst]
  simp only [List.filter_append, h1, h2, h3, h4, List.nil_append, List.append_nil]

/-- When the control flag is false after preprocessing, the routing part ends
there. -/
theorem HttpServer.dispatch_abort (s : HttpServer) (path : String) (r0 : Run)
    (hflag : (s.preData r0.data).controlFlag = false) :
    ∃ r, s.dispatch path r0 = some r ∧
      (r.trace = r0.trace ∨ r.trace = r0.trace ++ s.preSteps) := by
  unfold HttpServer.dispatch
  simp only [HttpServer.performPreprocessing_eq, HttpData.getControlFlag, hflag,
    Bool.false_eq_true, if_false]
  repeat' split
  all_goals first
    | exact ⟨_, rfl, Or.inl rfl⟩
    | exact ⟨_, rfl, Or.inr rfl⟩

/-- The handler invocations of a run of the default event callback, read off the
run of its routing part. -/
theorem handle_filter_finalize (s : HttpServer) (path : String) (r0 r : Run)
    (h : s.dispatch path r0 = some r) (h0 : r0.trace = []) :
    (finalize r).trace.filter (fun st => decide (st.stage = Stage.HANDLE)) = [] ∨
      ∃ st, s.handlerStep path = some st ∧
        (finalize r).trace.filter (fun st => decide (st.stage = Stage.HANDLE)) = [st] := by
  have hfin := finalizeSteps_stage r.data
  rw [finalize_eq]
  rcases s.dispatch_shape path r0 r h with ht | ht | ⟨st, hst, ht⟩ | ⟨st, hst, ht⟩
  · left
    rw [ht, h0]
    simpa using filter_handle_trace s [] _ [] [] (Or.inl rfl) (Or.inl rfl) (by simp) hfin
  · left
    rw [ht, h0]
    simpa using filter_handle_trace s [] _ s.preSteps [] (Or.inr rfl) (Or.inl rfl) (by simp) hfin
  · right
    refine ⟨st, hst, ?_⟩
    rw [ht, h0]
    have hh : ∀ x ∈ [st], x.stage = Stage.HANDLE := by
      intro x hx
      simp only [List.mem_singleton] at hx
      rw [hx]
      exact s.handlerStep_stage path st hst
    simpa using filter_handle_trace s [st] _ s.preSteps [] (Or.inr rfl) (Or.inl rfl) hh hfin
  · right
    refine ⟨st, hst, ?_⟩
    rw [ht, h0]
    have hh : ∀ x ∈ [st], x.stage = Stage.HANDLE := by
      intro x hx
      simp only [List.mem_singleton] at hx
      rw [hx]
      exact s.handlerStep_stage path st hst
    simpa using filter_handle_trace s [st] _ s.preSteps s.postSteps (Or.inr rfl) (Or.inr rfl) hh hfin

/-! ## Registration sequences -/

theorem HttpServer.register_m_Processors (s s1 : HttpServer) (call : Registration)
    (h : s.register call = some s1) :
    s1.m_Processors = s.m_Processors ++ call.processor.toList := by
  cases call with
  | addAction action =>
    cases action with
    | none => simp [HttpServer.register, HttpServer.addAction] at h
    | some a =>
      simp only [HttpServer.register, HttpServer.addAction, Option.map_some',
        Option.some.injEq] at h
      subst h
      simp [Registration.processor]
  | addProcessor processor =>
    cases processor with
    | none =>
      simp only [HttpServer.register, HttpServer.addProcessor, Option.some.injEq] at h
      subst h
      simp [Registration.processor]
    | some q =>
      simp only [HttpServer.register, HttpServer.addProcessor, Option.some.injEq] at h
      subst h
      simp [Registration.processor]
  | addActionCallback actionName callback =>
    simp only [HttpServer.register, HttpServer.addActionCallback, Option.some.injEq] at h
    subst h
    simp [Registration.processor]
  | registerRoute actionName routeName =>
    simp only [HttpServer.register, HttpServer.registerRoute, Option.some.injEq] at h
    subst h
    simp [Registration.processor]
  | addPreprocessor callback =>
    simp only [HttpServer.register, HttpServer.addPreprocessor, Option.some.injEq] at h
    subst h
    simp [Registration.processor]
  | addPostprocessor callback =>
    simp only [HttpServer.register, HttpServer.addPostprocessor, Option.some.injEq] at h
    subst h
    simp [Registration.processor]
  | setEventCallback eventCallback =>
    simp only [HttpServer.register, HttpServer.setEventCallback, Option.some.injEq] at h
    subst h
    simp [Registration.processor]

theorem HttpServer.registerAll_m_Processors (calls : List Registration) :
    ∀ (s s1 : HttpServer), s.registerAll calls = some s1 →
      s1.m_Processors = s.m_Processors ++ calls.filterMap Registration.processor := by
  induction calls with
  | nil =>
    intro s s1 h
    simp only [HttpServer.registerAll, Option.some.injEq] at h
    subst h
    simp
  | cons call rest ih =>
    intro s s1 h
    simp only [HttpServer.registerAll] at h
    split at h
    · rename_i s2 h2
      rw [ih s2 s1 h, s.register_m_Processors s2 call h2]
      cases hc : call.processor <;> simp [List.filterMap_cons, hc]
    · cases h

theorem Registration.processor_isSome (call : Registration) (q : Option Processor)
    (h : call.processor = some q) : q.isSome = true := by
  cases call with
  | addProcessor processor =>
    cases processor with
    | none => simp [Registration.processor] at h
    | some p =>
      simp only [Registration.processor, Option.some.injEq] at h
      subst h
      rfl
  | _ => simp [Registration.processor] at h

theorem StdMap.find_mem {V : Type} (m : StdMap V) (key : String) (value : V)
    (h : m.find key = some value) : (key, value) ∈ m := by
  induction m with
  | nil => simp [StdMap.find] at h
  | cons e rest ih =>
    obtain ⟨k, v⟩ := e
    simp only [StdMap.find] at h
    split at h
    · rename_i hk
      simp only [Option.some.injEq] at h
      subst hk; subst h
      exact List.mem_cons_self _ _
    · exact List.mem_cons_of_mem _ (ih h)

theorem StdMap.mem_assign {V : Type} (m : StdMap V) (key : String) (value : V)
    (e : String × V) (h : e ∈ m.assign key value) : e ∈ m ∨ e = (key, value) := by
  induction m with
  | nil =>
    simp only [StdMap.assign, List.mem_singleton] at h
    exact Or.inr h
  | cons e1 rest ih =>
    obtain ⟨k, v⟩ := e1
    simp only [StdMap.assign] at h
    split at h
    · simp only [List.mem_cons] at h
      rcases h with h | h
      · exact Or.inr h
      · exact Or.inl (List.mem_cons_of_mem _ h)
    · simp only [List.mem_cons] at h
      rcases h with h | h
      · exact Or.inl (h ▸ List.mem_cons_self _ _)
      · rcases ih h with h1 | h1
        · exact Or.inl (List.mem_cons_of_mem _ h1)
        · exact Or.inr h1

theorem HttpServer.register_m_Actions (s s1 : HttpServer) (call : Registration)
    (h : s.register call = some s1) (hs : ∀ e ∈ s.m_Actions, e.2.isSome = true) :
    ∀ e ∈ s1.m_Actions, e.2.isSome = true := by
  cases call with
  | addAction action =>
    cases action with
    | none => simp [HttpServer.register, HttpServer.addAction] at h
    | some a =>
      simp only [HttpServer.register, HttpServer.addAction, Option.map_some',
        Option.some.injEq] at h
      subst h
      intro e he
      rcases StdMap.mem_assign _ _ _ e he with h1 | h1
      · exact hs e h1
      · rw [h1]; rfl
  | addProcessor processor =>
    cases processor with
    | none =>
      simp only [HttpServer.register, HttpServer.addProcessor, Option.some.injEq] at h
      subst h
      exact hs
    | some q =>
      simp only [HttpServer.register, HttpServer.addProcessor, Option.some.injEq] at h
      subst h
      exact hs
  | addActionCallback actionName callback =>
    simp only [HttpServer.register, HttpServer.addActionCallback, Option.some.injEq] at h
    subst h
    exact hs
  | registerRoute actionName routeName =>
    simp only [HttpServer.register, HttpServer.registerRoute, Option.some.injEq] at h
    subst h
    exact hs
  | addPreprocessor callback =>
    simp only [HttpServer.register, HttpServer.addPreprocessor, Option.some.injEq] at h
    subst h
    exact hs
  | addPostprocessor callback =>
    simp only [HttpServer.register, HttpServer.addPostprocessor, Option.some.injEq] at h
    subst h
    exact hs
  | setEventCallback eventCallback =>
    simp only [HttpServer.register, HttpServer.setEventCallback, Option.some.injEq] at h
    subst h
    exact hs

theorem HttpServer.register_isSome (s : HttpServer) (call : Registration)
    (h : ∀ action, call = Registration.addAction action → action.isSome = true) :
    ∃ s1, s.register call = some s1 := by
  cases call with
  | addAction action =>
    cases action with
    | none => exact absurd (h none rfl) (by simp)
    | some a => exact ⟨_, rfl⟩
  | _ => exact ⟨_, rfl⟩

theorem HttpServer.registerAll_m_Actions (calls : List Registration) :
    ∀ s : HttpServer, (∀ e ∈ s.m_Actions, e.2.isSome = true) →
      (∀ action, Registration.addAction action ∈ calls → action.isSome = true) →
      ∃ s1, s.registerAll calls = some s1 ∧ ∀ e ∈ s1.m_Actions, e.2.isSome = true := by
  induction calls with
  | nil => intro s hs _; exact ⟨s, rfl, hs⟩
  | cons call rest ih =>
    intro s hs hcalls
    obtain ⟨s2, h2⟩ := s.register_isSome call
      (fun action hc => hcalls action (hc ▸ List.mem_cons_self _ _))
    obtain ⟨s1, h1, hinv⟩ := ih s2 (s.register_m_Actions s2 call h2 hs)
      (fun action hc => hcalls action (List.mem_cons_of_mem _ hc))
    refine ⟨s1, ?_, hinv⟩
    simp only [HttpServer.registerAll, h2]
    exact h1

/-- With no null entry in `m_Actions` the routing part dereferences no null
action. -/
theorem HttpServer.dispatch_isSome (s : HttpServer) (path : String) (r0 : Run)
    (hs : ∀ e ∈ s.m_Actions, e.2.isSome = true) : ∃ r, s.dispatch path r0 = some r := by
  unfold HttpServer.dispatch
  dsimp only
  repeat' split
  all_goals first
    | exact ⟨_, rfl⟩
    | (rename_i hnull
       have hentry : (none : Option Action).isSome = true :=
         hs ("", none) (StdMap.find_mem _ _ _ hnull)
       cases hentry)

/-! ## Event delivery and stage order -/

/-- An `HttpEvent` of the accepted type is forwarded to the installed callback
once, whatever its handles are. -/
theorem HttpServer.eventFilter_httpEventOf (s : HttpServer) (req : Option qttp.request)
    (resp : Option qttp.response) :
    s.eventFilter (some (httpEventOf req resp)) =
      (s.eventCallback req resp).map (fun run =>
        { result := true, warned := req.isNone || resp.isNone, calls := [(req, resp, run)] }) := by
  unfold HttpServer.eventFilter
  simp only [httpEventOf, ne_eq, not_true_eq_false, if_false]
  cases s.eventCallback req resp <;> rfl

theorem preprocessSteps_length (ps : List (Option Processor)) :
    ∀ i : Nat, (preprocessSteps i ps).length = (ps.filter Option.isSome).length := by
  induction ps with
  | nil => intro i; rfl
  | cons p ps ih =>
    intro i
    cases p with
    | none => simp [preprocessSteps, ih]
    | some p => simp [preprocessSteps, ih]

theorem postprocessSteps_length (ps : List (Option Processor)) :
    ∀ i : Nat, (postprocessSteps i ps).length = (ps.filter Option.isSome).length := by
  induction ps with
  | nil => intro i; rfl
  | cons p ps ih =>
    intro i
    cases p with
    | none => simp [postprocessSteps, ih]
    | some p => simp [postprocessSteps, ih]

theorem pairwise_rank_of_stage (l : List Step) (g : Stage) (h : ∀ st ∈ l, st.stage = g) :
    l.Pairwise (fun a b => a.stage.rank ≤ b.stage.rank) := by
  apply List.pairwise_of_forall_mem_list
  intro a ha b hb
  rw [h a ha, h b hb]

/-- A trace made of a preprocessing part, a handler part, a postprocessing part
and a finalizing part, in that order, is ordered by stage. -/
theorem pairwise_rank_of_parts (pre hs post fin : List Step)
    (hpre : ∀ st ∈ pre, st.stage = Stage.PREPROCESS) (hhs : ∀ st ∈ hs, st.stage = Stage.HANDLE)
    (hpost : ∀ st ∈ post, st.stage = Stage.POSTPROCESS)
    (hfin : ∀ st ∈ fin, st.stage = Stage.FINALIZE) :
    (pre ++ hs ++ post ++ fin).Pairwise (fun a b => a.stage.rank ≤ b.stage.rank) := by
  simp only [List.pairwise_append, List.mem_append]
  refine ⟨⟨⟨pairwise_rank_of_stage _ _ hpre, pairwise_rank_of_stage _ _ hhs, ?_⟩,
    pairwise_rank_of_stage _ _ hpost, ?_⟩, pairwise_rank_of_stage _ _ hfin, ?_⟩
  · intro a ha b hb
    rw [hpre a ha, hhs b hb]; decide
  · intro a ha b hb
    rw [hpost b hb]
    rcases ha with ha | ha
    · rw [hpre a ha]; decide
    · rw [hhs a ha]; decide
  · intro a ha b hb
    rw [hfin b hb]
    rcases ha with (ha | ha) | ha
    · rw [hpre a ha]; decide
    · rw [hhs a ha]; decide
    · rw [hpost a ha]; decide

/-! ## Claims -/

/-- C1: whenever the default event callback invokes a handler for an action name
under which both a callback and an object are registered, it is the callback
that is invoked, and no object's `onAction` is invoked for the request. -/
theorem callback_takes_precedence (s : HttpServer) (req : qttp.request)
    (resp : Option qttp.response) (run : Run) (name : String) (cb : Callback) (a : Action)
    (hrun : s.defaultEventCallback (some req) resp = some run)
    (hcb : s.m_ActionCallbacks.find name = some cb)
    (_hobj : s.m_Actions.find name = some (some a))
    (hinv : Step.actionCallback name ∈ run.trace ∨ Step.onAction name ∈ run.trace) :
    Step.actionCallback name ∈ run.trace ∧ ∀ n, Step.onAction n ∉ run.trace := by
  have hcase : Step.actionCallback name ∈ run.trace := by
    rcases hinv with h | h
    · exact h
    · have h1 := s.defaultEventCallback_handle req resp run hrun _ h rfl
      have h2 := s.handlerStep_onAction _ _ h1
      rw [hcb] at h2
      cases h2
  refine ⟨hcase, ?_⟩
  intro n hn
  have h1 := s.defaultEventCallback_handle req resp run hrun _ hcase rfl
  have h2 := s.defaultEventCallback_handle req resp run hrun _ hn rfl
  rw [h1] at h2
  cases h2

/-- C1 at `serverBothForms` and a request for `/a`: the callback under `act1`
runs (the payload is `ok`, not `object`) and the object does not. -/
theorem callback_takes_precedence_witness :
    serverBothForms.defaultEventCallback (some { path := "/a" }) (some { writable := true }) =
        some { data := { request := some { path := "/a" }, response := some { writable := true },
                         json := [("ok", QJsonValue.bool true)], controlFlag := true,
                         finished := true },
               trace := [Step.actionCallback "act1",
                         Step.finishResponse [("ok", QJsonValue.bool true)]] } ∧
      Step.actionCallback "act1" ∈
        [Step.actionCallback "act1", Step.finishResponse [("ok", QJsonValue.bool true)]] ∧
      ∀ n, Step.onAction n ∉
        [Step.actionCallback "act1", Step.finishResponse [("ok", QJsonValue.bool true)]] :=
  ⟨by decide,
   callback_takes_precedence serverBothForms { path := "/a" } (some { writable := true })
     { data := { request := some { path := "/a" }, response := some { writable := true },
                 json := [("ok", QJsonValue.bool true)], controlFlag := true, finished := true },
       trace := [Step.actionCallback "act1", Step.finishResponse [("ok", QJsonValue.bool true)]] }
     "act1" (markKey "ok") { getActionName := "act1", onAction := markKey "object" }
     (by decide) (by simp [serverBothForms, StdMap.find]) (by simp [serverBothForms, StdMap.find])
     (Or.inl (by decide))⟩

/-- C2: with preprocessor callbacks `cs` and (non-null) processors `ps` registered,
`performPreprocessing` invokes callback 0, ..., callback n-1, then `preprocess` of
processor 0, ..., processor m-1, each once and in that order, and the context it
leaves is the one these calls produce in that order; `addPreprocessor` and
`addProcessor` append, so list order is registration order. -/
theorem performPreprocessing_order (s : HttpServer) (cs : List Callback) (ps : List Processor)
    (r : Run) (c : Callback) (p : Processor) :
    ({ s with m_Preprocessors := cs, m_Processors := ps.map some }.performPreprocessing r).trace =
        r.trace ++ (List.range cs.length).map Step.preprocessor ++
          (List.range ps.length).map Step.preprocess ∧
      ({ s with m_Preprocessors := cs, m_Processors := ps.map some }.performPreprocessing r).data =
        ps.foldl (fun d q => q.preprocess d) (cs.foldl (fun d f => f d) r.data) ∧
      (s.addPreprocessor c).m_Preprocessors = s.m_Preprocessors ++ [c] ∧
      (s.addProcessor (some p)).2.m_Processors = s.m_Processors ++ [some p] := by
  refine ⟨?_, ?_, rfl, rfl⟩
  · simp [HttpServer.performPreprocessing_eq, HttpServer.preSteps, preprocessSteps_map_some,
      List.range_eq_range']
  · simp [HttpServer.performPreprocessing_eq, HttpServer.preData, foldl_applyPreprocess_map_some]

/-- C2 at `serverChain`: the two callbacks run before the two processors, and
the payload carries the four marks. -/
theorem performPreprocessing_order_witness :
    serverChain.performPreprocessing { data := HttpData.create none none, trace := [] } =
      { data := { request := none, response := none,
                  json := [("c1", QJsonValue.bool true), ("c2", QJsonValue.bool true),
                           ("p1", QJsonValue.bool true), ("p2", QJsonValue.bool true)],
                  controlFlag := true, finished := false },
        trace := [Step.preprocessor 0, Step.preprocessor 1, Step.preprocess 0,
                  Step.preprocess 1] } ∧
      ({ serverChain with
          m_Preprocessors := [setControlFlag false, markKey "c2"],
          m_Processors := [({ preprocess := markKey "p1", postprocess := markKey "x1" } :
            Processor)].map some }.performPreprocessing
        { data := HttpData.create none none, trace := [] }).trace =
        [] ++ (List.range 2).map Step.preprocessor ++ (List.range 1).map Step.preprocess :=
  ⟨by decide,
   (performPreprocessing_order serverChain [setControlFlag false, markKey "c2"]
     [{ preprocess := markKey "p1", postprocess := markKey "x1" }]
     { data := HttpData.create none none, trace := [] } (markKey "c3")
     { preprocess := markKey "p3", postprocess := markKey "x3" }).1⟩

/-- C3: with (non-null) processors `ps` and postprocessor callbacks `qs` registered,
`performPostprocessing` invokes `postprocess` of processor m-1, ..., processor 0,
then callback 0, ..., callback k-1, each once and in that order, and the context
it leaves is the one these calls produce in that order; `addPostprocessor`
appends, so list order is registration order. -/
theorem performPostprocessing_order (s : HttpServer) (ps : List Processor) (qs : List Callback)
    (r : Run) (q : Callback) :
    ({ s with m_Processors := ps.map some, m_Postprocessors := qs }.performPostprocessing r).trace =
        r.trace ++ ((List.range ps.length).map Step.postprocess).reverse ++
          (List.range qs.length).map Step.postprocessor ∧
      ({ s with m_Processors := ps.map some, m_Postprocessors := qs }.performPostprocessing r).data =
        qs.foldl (fun d f => f d) (ps.foldr (fun p d => p.postprocess d) r.data) ∧
      (s.addPostprocessor q).m_Postprocessors = s.m_Postprocessors ++ [q] := by
  refine ⟨?_, ?_, rfl⟩
  · simp [HttpServer.performPostprocessing_eq, HttpServer.postSteps, postprocessSteps_map_some,
      List.range_eq_range']
  · simp [HttpServer.performPostprocessing_eq, HttpServer.postData, foldr_applyPostprocess_map_some]

/-- C3 at `serverChain`: processor 1 runs before processor 0, and both before
the two callbacks. -/
theorem performPostprocessing_order_witness :
    (serverChain.performPostprocessing { data := HttpData.create none none, trace := [] }).trace =
      [Step.postprocess 1, Step.postprocess 0, Step.postprocessor 0, Step.postprocessor 1] ∧
      ({ serverChain with
          m_Processors := [({ preprocess := markKey "p1", postprocess := markKey "x1" } : Processor),
            { preprocess := markKey "p2", postprocess := setControlFlag false }].map some,
          m_Postprocessors := [markKey "q1"] }.performPostprocessing
        { data := HttpData.create none none, trace := [] }).data =
        [markKey "q1"].foldl (fun d f => f d)
          (([{ preprocess := markKey "p1", postprocess := markKey "x1" },
             { preprocess := markKey "p2", postprocess := setControlFlag false }] :
              List Processor).foldr (fun p d => p.postprocess d) (HttpData.create none none)) :=
  ⟨by decide,
   (performPostprocessing_order serverChain
     [{ preprocess := markKey "p1", postprocess := markKey "x1" },
      { preprocess := markKey "p2", postprocess := setControlFlag false }]
     [markKey "q1"] { data := HttpData.create none none, trace := [] } (markKey "q3")).2.1⟩

/-- C4, as stated, fails: at `serverAbortResume` the first preprocessor callback
sets the control flag to false, the second sets it back to true, and the
fallback handler is invoked all the same. -/
theorem abort_in_preprocessing_counterexample :
    (runCallbacks Step.preprocessor 0 (serverAbortResume.m_Preprocessors.take 1)
        { data := HttpData.create (some { path := "/x" }) none, trace := [] }).data.controlFlag
        = false ∧
      serverAbortResume.defaultEventCallback (some { path := "/x" }) none =
        some { data := { request := some { path := "/x" }, response := none,
                         json := [("error", QJsonValue.string "Invalid request")],
                         controlFlag := true, finished := true },
               trace := [Step.preprocessor 0, Step.preprocessor 1, Step.invalidRequest,
                         Step.finishResponse [("error", QJsonValue.string "Invalid request")],
                         Step.logWarn] } := by
  decide

/-- C4, amended: if the control flag is false when `performPreprocessing` has
completed, the default event callback returns having invoked no handler
(callback, object or built-in fallback) and no postprocessing step. -/
theorem abort_after_preprocessing (s : HttpServer) (req : qttp.request)
    (resp : Option qttp.response)
    (h : (s.preData (HttpData.create (some req) resp)).controlFlag = false) :
    ∃ run, s.defaultEventCallback (some req) resp = some run ∧
      ∀ st ∈ run.trace, st.stage ≠ Stage.HANDLE ∧ st.stage ≠ Stage.POSTPROCESS := by
  have hpre : ∀ st ∈ s.preSteps, st.stage ≠ Stage.HANDLE ∧ st.stage ≠ Stage.POSTPROCESS := by
    intro st hst
    rw [s.preSteps_stage st hst]
    exact ⟨by decide, by decide⟩
  have hfin : ∀ d, ∀ st ∈ finalizeSteps d,
      st.stage ≠ Stage.HANDLE ∧ st.stage ≠ Stage.POSTPROCESS := by
    intro d st hst
    rw [finalizeSteps_stage d st hst]
    exact ⟨by decide, by decide⟩
  have hall : ∀ r : Run, (r.trace = [] ∨ r.trace = s.preSteps) →
      ∀ st ∈ (finalize r).trace, st.stage ≠ Stage.HANDLE ∧ st.stage ≠ Stage.POSTPROCESS := by
    intro r hr st hst
    rw [finalize_eq] at hst
    simp only [List.mem_append] at hst
    rcases hst with hst | hst
    · rcases hr with hr | hr
      · rw [hr] at hst; cases hst
      · rw [hr] at hst; exact hpre st hst
    · exact hfin _ st hst
  have hd : ∃ r, s.dispatch req.path { data := HttpData.create (some req) resp, trace := [] }
      = some r ∧ (r.trace = [] ∨ r.trace = s.preSteps) := by
    unfold HttpServer.dispatch
    simp only [HttpServer.performPreprocessing_eq, HttpData.getControlFlag, h, List.nil_append,
      Bool.false_eq_true, if_false]
    repeat' split
    all_goals first
      | exact ⟨_, rfl, Or.inl rfl⟩
      | exact ⟨_, rfl, Or.inr rfl⟩
  obtain ⟨r, hr, ht⟩ := hd
  refine ⟨finalize r, ?_, hall r ht⟩
  unfold HttpServer.defaultEventCallback
  simp only [hr]

/-- C4, amended, at `serverAbort` and a request for `/x`: the preprocessor
callback aborts, the payload stays empty and nothing but the callback runs. -/
theorem abort_after_preprocessing_witness :
    (serverAbort.preData (HttpData.create (some { path := "/x" }) none)).controlFlag = false ∧
      serverAbort.defaultEventCallback (some { path := "/x" }) none =
        some { data := { request := some { path := "/x" }, response := none, json := [],
                         controlFlag := false, finished := false },
               trace := [Step.preprocessor 0] } ∧
      ∃ run, serverAbort.defaultEventCallback (some { path := "/x" }) none = some run ∧
        ∀ st ∈ run.trace, st.stage ≠ Stage.HANDLE ∧ st.stage ≠ Stage.POSTPROCESS :=
  ⟨by decide, by decide,
   abort_after_preprocessing serverAbort { path := "/x" } none (by decide)⟩

/-- C5: `addAction` (object form, called with a non-null action), `addAction`
(callback form) and `registerRoute` return true exactly when the key had no
entry in the mapping before the call, and false exactly when it had one. -/
theorem registration_reports_no_overwrite (s : HttpServer) (a : Action) (name : String)
    (cb : Callback) (actionName routeName : String) :
    (∃ b s1, s.addAction (some a) = some (b, s1) ∧
        (b = true ↔ s.m_Actions.find a.getActionName = none) ∧
        (b = false ↔ ∃ old, s.m_Actions.find a.getActionName = some old)) ∧
      (((s.addActionCallback name cb).1 = true ↔ s.m_ActionCallbacks.find name = none) ∧
        ((s.addActionCallback name cb).1 = false ↔
          ∃ old, s.m_ActionCallbacks.find name = some old)) ∧
      (((s.registerRoute actionName routeName).1 = true ↔ s.m_Routes.find routeName = none) ∧
        ((s.registerRoute actionName routeName).1 = false ↔
          ∃ old, s.m_Routes.find routeName = some old)) := by
  refine ⟨⟨_, _, rfl, ?_, ?_⟩, ⟨?_, ?_⟩, ⟨?_, ?_⟩⟩
  · cases h : s.m_Actions.find a.getActionName <;> simp
  · cases h : s.m_Actions.find a.getActionName <;> simp
  · cases h : s.m_ActionCallbacks.find name <;> simp [HttpServer.addActionCallback, h]
  · cases h : s.m_ActionCallbacks.find name <;> simp [HttpServer.addActionCallback, h]
  · cases h : s.m_Routes.find routeName <;> simp [HttpServer.registerRoute, h]
  · cases h : s.m_Routes.find routeName <;> simp [HttpServer.registerRoute, h]

/-- C5 at `serverBothForms`: registering under the used name `act1` or the used
path `/a` returns false, under the unused name `act2` or path `/b` true. -/
theorem registration_reports_no_overwrite_witness :
    (serverBothForms.addActionCallback "act1" (markKey "new")).1 = false ∧
      (serverBothForms.addActionCallback "act2" (markKey "new")).1 = true ∧
      (serverBothForms.registerRoute "act1" "/a").1 = false ∧
      (serverBothForms.registerRoute "act1" "/b").1 = true ∧
      (((serverBothForms.addActionCallback "act2" (markKey "new")).1 = true ↔
          serverBothForms.m_ActionCallbacks.find "act2" = none) ∧
        ((serverBothForms.addActionCallback "act2" (markKey "new")).1 = false ↔
          ∃ old, serverBothForms.m_ActionCallbacks.find "act2" = some old)) :=
  ⟨by decide, by decide, by decide, by decide,
   (registration_reports_no_overwrite serverBothForms
     { getActionName := "act1", onAction := markKey "new" } "act2" (markKey "new")
     "act1" "/b").2.1⟩

/-- C6, as stated, fails: on a server without actions, registering a callback
under the unused name `act1` returns true, and registering it once more, now
under a used name, returns false. -/
theorem collision_signal_counterexample :
    ({} : HttpServer).m_ActionCallbacks.find "act1" = none ∧
      (({} : HttpServer).addActionCallback "act1" (markKey "ok")).1 = true ∧
      ((({} : HttpServer).addActionCallback "act1" (markKey "ok")).2.addActionCallback "act1"
        (markKey "ok")).1 = false := by
  refine ⟨rfl, by decide, by decide⟩

/-- C6, amended: the boolean returned by `addAction` (either form) is the negation
of the collision signal: it is false exactly when the name already had an entry
in that mapping (which the call replaces) and true exactly when the name was
unused. -/
theorem addAction_returns_not_collision (s : HttpServer) (a : Action) (name : String)
    (cb : Callback) :
    (((s.addActionCallback name cb).1 = false ↔
          ∃ old, s.m_ActionCallbacks.find name = some old) ∧
        ((s.addActionCallback name cb).1 = true ↔ s.m_ActionCallbacks.find name = none) ∧
        (s.addActionCallback name cb).2.m_ActionCallbacks.find name = some cb) ∧
      ∃ b s1, s.addAction (some a) = some (b, s1) ∧
        (b = false ↔ ∃ old, s.m_Actions.find a.getActionName = some old) ∧
        (b = true ↔ s.m_Actions.find a.getActionName = none) ∧
        s1.m_Actions.find a.getActionName = some (some a) := by
  refine ⟨⟨?_, ?_, StdMap.find_assign_self _ _ _⟩, _, _, rfl, ?_, ?_,
    StdMap.find_assign_self _ _ _⟩
  · cases h : s.m_ActionCallbacks.find name <;> simp [HttpServer.addActionCallback, h]
  · cases h : s.m_ActionCallbacks.find name <;> simp [HttpServer.addActionCallback, h]
  · cases h : s.m_Actions.find a.getActionName <;> simp
  · cases h : s.m_Actions.find a.getActionName <;> simp

/-- C6, amended, at `serverBothForms`: `act1` is taken in both mappings and
registering a callback under it returns false. -/
theorem addAction_returns_not_collision_witness :
    (serverBothForms.m_ActionCallbacks.find "act1").isSome = true ∧
      (serverBothForms.addActionCallback "act1" (markKey "new")).1 = false ∧
      (((serverBothForms.addActionCallback "act1" (markKey "new")).1 = false ↔
          ∃ old, serverBothForms.m_ActionCallbacks.find "act1" = some old) ∧
        ((serverBothForms.addActionCallback "act1" (markKey "new")).1 = true ↔
          serverBothForms.m_ActionCallbacks.find "act1" = none) ∧
        (serverBothForms.addActionCallback "act1" (markKey "new")).2.m_ActionCallbacks.find "act1" =
          some (markKey "new")) :=
  ⟨by decide, by decide,
   (addAction_returns_not_collision serverBothForms
     { getActionName := "act1", onAction := markKey "new" } "act1" (markKey "new")).1⟩

/-- C7: after `registerRoute(actionName, path)` the path maps to `actionName`, every
other path maps to what it mapped to before and the other registries are
unchanged; likewise for both forms of `addAction` and their mapping; and after
registering two different paths for one action name both map to it. -/
theorem registration_frame (s : HttpServer) (actionName path other : String) (a : Action)
    (name : String) (cb : Callback) (path2 : String) :
    ((s.registerRoute actionName path).2.m_Routes.find path = some actionName ∧
        (other ≠ path →
          (s.registerRoute actionName path).2.m_Routes.find other = s.m_Routes.find other) ∧
        (s.registerRoute actionName path).2.m_Actions = s.m_Actions ∧
        (s.registerRoute actionName path).2.m_ActionCallbacks = s.m_ActionCallbacks ∧
        (s.registerRoute actionName path).2.m_Processors = s.m_Processors ∧
        (s.registerRoute actionName path).2.m_Preprocessors = s.m_Preprocessors ∧
        (s.registerRoute actionName path).2.m_Postprocessors = s.m_Postprocessors) ∧
      ((s.addActionCallback name cb).2.m_ActionCallbacks.find name = some cb ∧
        (other ≠ name →
          (s.addActionCallback name cb).2.m_ActionCallbacks.find other =
            s.m_ActionCallbacks.find other) ∧
        (s.addActionCallback name cb).2.m_Actions = s.m_Actions ∧
        (s.addActionCallback name cb).2.m_Routes = s.m_Routes ∧
        (s.addActionCallback name cb).2.m_Processors = s.m_Processors ∧
        (s.addActionCallback name cb).2.m_Preprocessors = s.m_Preprocessors ∧
        (s.addActionCallback name cb).2.m_Postprocessors = s.m_Postprocessors) ∧
      (∃ b s1, s.addAction (some a) = some (b, s1) ∧
        s1.m_Actions.find a.getActionName = some (some a) ∧
        (other ≠ a.getActionName → s1.m_Actions.find other = s.m_Actions.find other) ∧
        s1.m_ActionCallbacks = s.m_ActionCallbacks ∧
        s1.m_Routes = s.m_Routes ∧
        s1.m_Processors = s.m_Processors ∧
        s1.m_Preprocessors = s.m_Preprocessors ∧
        s1.m_Postprocessors = s.m_Postprocessors) ∧
      (path2 ≠ path →
        ((s.registerRoute actionName path).2.registerRoute actionName path2).2.m_Routes.find path =
            some actionName ∧
          ((s.registerRoute actionName path).2.registerRoute actionName path2).2.m_Routes.find path2 =
            some actionName) := by
  refine ⟨⟨?_, ?_, rfl, rfl, rfl, rfl, rfl⟩, ⟨?_, ?_, rfl, rfl, rfl, rfl, rfl⟩,
    ⟨_, _, rfl, ?_, ?_, rfl, rfl, rfl, rfl, rfl⟩, ?_⟩
  · exact StdMap.find_assign_self _ _ _
  · exact fun h => StdMap.find_assign_of_ne _ _ _ _ h
  · exact StdMap.find_assign_self _ _ _
  · exact fun h => StdMap.find_assign_of_ne _ _ _ _ h
  · exact StdMap.find_assign_self _ _ _
  · exact fun h => StdMap.find_assign_of_ne _ _ _ _ h
  · intro h
    refine ⟨?_, StdMap.find_assign_self _ _ _⟩
    show (StdMap.assign (StdMap.assign s.m_Routes path actionName) path2 actionName).find path = _
    rw [StdMap.find_assign_of_ne _ _ _ _ (Ne.symm h)]
    exact StdMap.find_assign_self _ _ _

/-- C7 at `serverBothForms`: re-registering `/a` for `act2` wins over the earlier
`act1`, and `/a` and `/b` can both be routed to `act1`. -/
theorem registration_frame_witness :
    serverBothForms.m_Routes.find "/a" = some "act1" ∧
      (serverBothForms.registerRoute "act2" "/a").2.m_Routes.find "/a" = some "act2" ∧
      ("/b" ≠ "/a" →
        ((serverBothForms.registerRoute "act1" "/a").2.registerRoute "act1" "/b").2.m_Routes.find
            "/a" = some "act1" ∧
          ((serverBothForms.registerRoute "act1" "/a").2.registerRoute "act1" "/b").2.m_Routes.find
            "/b" = some "act1") :=
  ⟨by decide, by decide,
   (registration_frame serverBothForms "act1" "/a" "/c"
     { getActionName := "act1", onAction := markKey "new" } "act1" (markKey "new") "/b").2.2.2⟩

/-- C8, as stated, fails: at `serverAbort` the path `/x` has no route and no
default action is registered, yet the payload ends empty and `finishResponse`
is not called; at `serverMarking` the payload ends with two more keys. -/
theorem invalid_request_counterexample :
    (serverAbort.m_Routes.find "/x" = none ∧ serverAbort.m_ActionCallbacks.find "" = none ∧
        (serverAbort.m_Actions.find "").isNone = true ∧
        serverAbort.defaultEventCallback (some { path := "/x" }) (some { writable := true }) =
          some { data := { request := some { path := "/x" }, response := some { writable := true },
                           json := [], controlFlag := false, finished := false },
                 trace := [Step.preprocessor 0] }) ∧
      (serverMarking.defaultEventCallback (some { path := "/x" }) (some { writable := true })).map
          (fun run => run.data.json) =
        some [("error", QJsonValue.string "Invalid request"), ("p1", QJsonValue.bool true),
              ("x1", QJsonValue.bool true)] := by
  refine ⟨⟨rfl, rfl, rfl, by decide⟩, by decide⟩

/-- C8, amended: when the path has no route, no default action is registered,
preprocessing leaves the control flag true and the payload empty, and
postprocessing leaves the payload as the fallback wrote it and the response
unfinished, the default event callback returns with the payload exactly
`{"error": "Invalid request"}`, having run preprocessing, the fallback and
postprocessing and then called `finishResponse` once with that payload. -/
theorem invalid_request_fallback (s : HttpServer) (req : qttp.request)
    (resp : Option qttp.response)
    (hroute : s.m_Routes.find req.path = none)
    (hcb : s.m_ActionCallbacks.find "" = none)
    (hobj : s.m_Actions.find "" = none)
    (hflag : (s.preData (HttpData.create (some req) resp)).controlFlag = true)
    (hjson : (s.preData (HttpData.create (some req) resp)).json = [])
    (hpost : (s.postData (invalidRequest (s.preData (HttpData.create (some req) resp)))).json =
      (invalidRequest (s.preData (HttpData.create (some req) resp))).json)
    (hfin : (s.postData (invalidRequest (s.preData (HttpData.create (some req) resp)))).finished =
      false) :
    ∃ run tail, s.defaultEventCallback (some req) resp = some run ∧
      run.data.json = invalidRequestBody ∧
      run.data.finished = true ∧
      run.trace = s.preSteps ++ Step.invalidRequest :: s.postSteps ++
        Step.finishResponse invalidRequestBody :: tail ∧
      (tail = [] ∨ tail = [Step.logWarn]) := by
  have hbody : (s.postData (invalidRequest (s.preData (HttpData.create (some req) resp)))).json =
      invalidRequestBody := by
    rw [hpost]
    simp [invalidRequest, hjson, QJsonObject.set, invalidRequestBody]
  have hd : s.dispatch req.path { data := HttpData.create (some req) resp, trace := [] } =
      some { data := s.postData (invalidRequest (s.preData (HttpData.create (some req) resp))),
             trace := s.preSteps ++ [Step.invalidRequest] ++ s.postSteps } := by
    unfold HttpServer.dispatch
    simp [HttpServer.performPreprocessing_eq, HttpServer.performPostprocessing_eq,
      HttpData.getControlFlag, hroute, hcb, hobj, hflag, Run.invoke]
  unfold HttpServer.defaultEventCallback
  simp only [hd]
  unfold finalize
  simp only [HttpData.getJson, HttpData.isFinished, hbody, hfin, HttpData.finishResponse]
  by_cases hw : (match
      (s.postData (invalidRequest (s.preData (HttpData.create (some req) resp)))).response with
      | some resp => resp.writable
      | none => false) = true
  · refine ⟨_, [], rfl, ?_⟩
    simp [hw, QJsonObject.isEmpty, invalidRequestBody, hbody]
  · refine ⟨_, [Step.logWarn], rfl, ?_⟩
    simp [hw, QJsonObject.isEmpty, invalidRequestBody, hbody]

/-- C8, amended, at `serverAbortResume` and a request for `/x`: preprocessing ends
with the control flag true and an empty payload, and the fallback payload is
what is written. -/
theorem invalid_request_fallback_witness :
    serverAbortResume.defaultEventCallback (some { path := "/x" }) (some { writable := true }) =
        some { data := { request := some { path := "/x" }, response := some { writable := true },
                         json := [("error", QJsonValue.string "Invalid request")],
                         controlFlag := true, finished := true },
               trace := [Step.preprocessor 0, Step.preprocessor 1, Step.invalidRequest,
                         Step.finishResponse [("error", QJsonValue.string "Invalid request")]] } ∧
      ∃ run tail, serverAbortResume.defaultEventCallback (some { path := "/x" })
          (some { writable := true }) = some run ∧
        run.data.json = invalidRequestBody ∧
        run.data.finished = true ∧
        run.trace = serverAbortResume.preSteps ++ Step.invalidRequest ::
          serverAbortResume.postSteps ++ Step.finishResponse invalidRequestBody :: tail ∧
        (tail = [] ∨ tail = [Step.logWarn]) :=
  ⟨by decide,
   invalid_request_fallback serverAbortResume { path := "/x" } (some { writable := true })
     rfl rfl rfl (by decide) (by decide) (by decide) (by decide)⟩

/-- C9: when the path has no route, a default action `f` is registered under `""`
(as a callback, or else as a non-null object) and the control flag is true after
preprocessing, the default event callback returns having invoked preprocessing,
then that default action, then postprocessing; the default action is the only
handler invocation, the fallback is not invoked, and the payload is the one
postprocessing leaves from what the default action produced. -/
theorem default_action_invoked (s : HttpServer) (req : qttp.request)
    (resp : Option qttp.response) (f : Callback)
    (hroute : s.m_Routes.find req.path = none)
    (hdef : s.m_ActionCallbacks.find "" = some f ∨
      (s.m_ActionCallbacks.find "" = none ∧
        ∃ a, s.m_Actions.find "" = some (some a) ∧ a.onAction = f))
    (hflag : (s.preData (HttpData.create (some req) resp)).controlFlag = true) :
    ∃ run h, s.defaultEventCallback (some req) resp = some run ∧
      (h = if (s.m_ActionCallbacks.find "").isSome then Step.actionCallback ""
           else Step.onAction "") ∧
      run.trace = s.preSteps ++ h :: s.postSteps ++
        finalizeSteps (s.postData (f (s.preData (HttpData.create (some req) resp)))) ∧
      run.trace.filter (fun st => decide (st.stage = Stage.HANDLE)) = [h] ∧
      Step.invalidRequest ∉ run.trace ∧
      run.data.json = (s.postData (f (s.preData (HttpData.create (some req) resp)))).json := by
  have hshape : ∀ (h : Step) (run : Run), h.stage = Stage.HANDLE → h ≠ Step.invalidRequest →
      run.trace = s.preSteps ++ h :: s.postSteps ++
        finalizeSteps (s.postData (f (s.preData (HttpData.create (some req) resp)))) →
      run.trace.filter (fun st => decide (st.stage = Stage.HANDLE)) = [h] ∧
        Step.invalidRequest ∉ run.trace := by
    intro h run hh hne ht
    have hfilter : run.trace.filter (fun st => decide (st.stage = Stage.HANDLE)) = [h] := by
      rw [ht]
      simp only [List.filter_append, List.filter_cons, hh, decide_True, if_true]
      rw [filter_handle_eq_nil _ Stage.PREPROCESS (by decide) s.preSteps_stage,
        filter_handle_eq_nil _ Stage.POSTPROCESS (by decide) s.postSteps_stage,
        filter_handle_eq_nil _ Stage.FINALIZE (by decide) (finalizeSteps_stage _)]
      rfl
    refine ⟨hfilter, ?_⟩
    intro hmem
    have : Step.invalidRequest ∈ run.trace.filter (fun st => decide (st.stage = Stage.HANDLE)) :=
      List.mem_filter.mpr ⟨hmem, by decide⟩
    rw [hfilter] at this
    simp only [List.mem_singleton] at this
    exact hne this.symm
  have hjson : ∀ r : Run, (finalize r).data.json = r.data.json := finalize_json
  rcases hdef with hcb | ⟨hcb, a, hobj, rfl⟩
  · have hd : s.dispatch req.path { data := HttpData.create (some req) resp, trace := [] } =
        some { data := s.postData (f (s.preData (HttpData.create (some req) resp))),
               trace := s.preSteps ++ [Step.actionCallback ""] ++ s.postSteps } := by
      unfold HttpServer.dispatch
      simp [HttpServer.performPreprocessing_eq, HttpServer.performPostprocessing_eq,
        HttpData.getControlFlag, hroute, hcb, hflag, Run.invoke]
    have ht : (finalize
        { data := s.postData (f (s.preData (HttpData.create (some req) resp))),
          trace := s.preSteps ++ [Step.actionCallback ""] ++ s.postSteps }).trace =
        s.preSteps ++ Step.actionCallback "" :: s.postSteps ++
          finalizeSteps (s.postData (f (s.preData (HttpData.create (some req) resp)))) := by
      rw [finalize_eq]; simp
    refine ⟨_, Step.actionCallback "", ?_, by simp [hcb], ht, ?_, ?_, hjson _⟩
    · unfold HttpServer.defaultEventCallback
      simp only [hd]
    · exact (hshape (Step.actionCallback "") _ rfl (by simp) ht).1
    · exact (hshape (Step.actionCallback "") _ rfl (by simp) ht).2
  · have hd : s.dispatch req.path { data := HttpData.create (some req) resp, trace := [] } =
        some { data := s.postData (a.onAction (s.preData (HttpData.create (some req) resp))),
               trace := s.preSteps ++ [Step.onAction ""] ++ s.postSteps } := by
      unfold HttpServer.dispatch
      simp [HttpServer.performPreprocessing_eq, HttpServer.performPostprocessing_eq,
        HttpData.getControlFlag, hroute, hcb, hobj, hflag, Run.invoke]
    have ht : (finalize
        { data := s.postData (a.onAction (s.preData (HttpData.create (some req) resp))),
          trace := s.preSteps ++ [Step.onAction ""] ++ s.postSteps }).trace =
        s.preSteps ++ Step.onAction "" :: s.postSteps ++
          finalizeSteps (s.postData (a.onAction (s.preData (HttpData.create (some req) resp)))) := by
      rw [finalize_eq]; simp
    refine ⟨_, Step.onAction "", ?_, by simp [hcb], ht, ?_, ?_, hjson _⟩
    · unfold HttpServer.defaultEventCallback
      simp only [hd]
    · exact (hshape (Step.onAction "") _ rfl (by simp) ht).1
    · exact (hshape (Step.onAction "") _ rfl (by simp) ht).2

/-- C9 at `serverDefaultObject` and a request for `/x`: the default object is
invoked once between preprocessing and postprocessing, and the payload has no
`error` key. -/
theorem default_action_invoked_witness :
    serverDefaultObject.defaultEventCallback (some { path := "/x" }) (some { writable := true }) =
        some { data := { request := some { path := "/x" }, response := some { writable := true },
                         json := [("c1", QJsonValue.bool true), ("default", QJsonValue.bool true),
                                  ("p1", QJsonValue.bool true), ("q1", QJsonValue.bool true),
                                  ("x1", QJsonValue.bool true)],
                         controlFlag := true, finished := true },
               trace := [Step.preprocessor 0, Step.preprocess 0, Step.onAction "",
                         Step.postprocess 0, Step.postprocessor 0,
                         Step.finishResponse
                           [("c1", QJsonValue.bool true), ("default", QJsonValue.bool true),
                            ("p1", QJsonValue.bool true), ("q1", QJsonValue.bool true),
                            ("x1", QJsonValue.bool true)]] } ∧
      ∃ run h, serverDefaultObject.defaultEventCallback (some { path := "/x" })
          (some { writable := true }) = some run ∧
        (h = if (serverDefaultObject.m_ActionCallbacks.find "").isSome then Step.actionCallback ""
             else Step.onAction "") ∧
        run.trace = serverDefaultObject.preSteps ++ h :: serverDefaultObject.postSteps ++
          finalizeSteps (serverDefaultObject.postData (markKey "default"
            (serverDefaultObject.preData
              (HttpData.create (some { path := "/x" }) (some { writable := true }))))) ∧
        run.trace.filter (fun st => decide (st.stage = Stage.HANDLE)) = [h] ∧
        Step.invalidRequest ∉ run.trace ∧
        run.data.json = (serverDefaultObject.postData (markKey "default"
          (serverDefaultObject.preData
            (HttpData.create (some { path := "/x" }) (some { writable := true }))))).json :=
  ⟨by decide,
   default_action_invoked serverDefaultObject { path := "/x" } (some { writable := true })
     (markKey "default") rfl
     (Or.inr ⟨rfl, { getActionName := "", onAction := markKey "default" }, rfl, rfl⟩)
     (by decide)⟩

/-- C10: the default event callback calls `finishResponse` exactly when, after the
routing part (preprocessing, handler, postprocessing) has run, the payload is
not empty and the response is not marked finished; it calls it with that
payload, at most once, never during the routing part and never when a handler
or processor has marked the response finished. -/
theorem finishResponse_guard (s : HttpServer) (req : qttp.request)
    (resp : Option qttp.response) (run : Run)
    (hrun : s.defaultEventCallback (some req) resp = some run) :
    ∃ r, s.dispatch req.path { data := HttpData.create (some req) resp, trace := [] } = some r ∧
      r.trace.countP Step.isFinishResponse = 0 ∧
      ((∃ body, Step.finishResponse body ∈ run.trace) ↔
        (r.data.json ≠ [] ∧ r.data.finished = false)) ∧
      (∀ body, Step.finishResponse body ∈ run.trace → body = r.data.json) ∧
      run.trace.countP Step.isFinishResponse ≤ 1 ∧
      (r.data.finished = true → run.trace.countP Step.isFinishResponse = 0) := by
  obtain ⟨r, hr, rfl⟩ := s.defaultEventCallback_some req resp run hrun
  have hstage : ∀ st ∈ r.trace, st.stage ≠ Stage.FINALIZE := by
    intro st hst
    rcases s.dispatch_stage req.path _ r hr st hst with h | h
    · simp at h
    · exact h
  have hzero : r.trace.countP Step.isFinishResponse = 0 :=
    countP_isFinishResponse_eq_zero r.trace hstage
  have hnot : ∀ body, Step.finishResponse body ∉ r.trace := fun body hb => hstage _ hb rfl
  have htrace : (finalize r).trace = r.trace ++ finalizeSteps r.data := by rw [finalize_eq]
  refine ⟨r, hr, hzero, ?_, ?_, ?_, ?_⟩
  · rw [htrace, finalizeSteps_eq]
    by_cases hc : r.data.json ≠ [] ∧ r.data.finished = false
    · simp only [hc, and_self, if_true, iff_true, ne_eq, not_false_eq_true]
      exact ⟨r.data.json, by simp⟩
    · simp only [hc, if_false, List.append_nil, iff_false, not_exists]
      exact hnot
  · intro body hb
    rw [htrace, finalizeSteps_eq] at hb
    simp only [List.mem_append, hnot, false_or] at hb
    split at hb
    · simp only [List.mem_cons, Step.finishResponse.injEq] at hb
      rcases hb with hb | hb
      · exact hb
      · split at hb <;> simp at hb
    · cases hb
  · rw [htrace, List.countP_append, hzero, finalizeSteps_eq]
    split
    · split <;> simp [Step.isFinishResponse]
    · simp
  · intro hf
    rw [htrace, List.countP_append, hzero, finalizeSteps_eq]
    simp [hf]

/-- C10 at `serverFinishing` and a request for `/a`: the callback writes the
payload and marks the response finished, and `finishResponse` is not called. -/
theorem finishResponse_guard_witness :
    serverFinishing.defaultEventCallback (some { path := "/a" }) (some { writable := true }) =
        some { data := { request := some { path := "/a" }, response := some { writable := true },
                         json := [("ok", QJsonValue.bool true)], controlFlag := true,
                         finished := true },
               trace := [Step.actionCallback "act1"] } ∧
      ∃ r, serverFinishing.dispatch "/a"
          { data := HttpData.create (some { path := "/a" }) (some { writable := true }),
            trace := [] } = some r ∧
        r.trace.countP Step.isFinishResponse = 0 ∧
        ((∃ body, Step.finishResponse body ∈ [Step.actionCallback "act1"]) ↔
          (r.data.json ≠ [] ∧ r.data.finished = false)) ∧
        (∀ body, Step.finishResponse body ∈ [Step.actionCallback "act1"] → body = r.data.json) ∧
        [Step.actionCallback "act1"].countP Step.isFinishResponse ≤ 1 ∧
        (r.data.finished = true → [Step.actionCallback "act1"].countP Step.isFinishResponse = 0) :=
  ⟨by decide,
   finishResponse_guard serverFinishing { path := "/a" } (some { writable := true })
     { data := { request := some { path := "/a" }, response := some { writable := true },
                 json := [("ok", QJsonValue.bool true)], controlFlag := true, finished := true },
       trace := [Step.actionCallback "act1"] }
     (by decide)⟩

/-- C11, as stated, fails: at `serverAbort` the preprocessor callback aborts and
the request for `/x` is dispatched without any of the three handler roles
executing. -/
theorem exactly_one_handler_counterexample :
    (serverAbort.defaultEventCallback (some { path := "/x" }) (some { writable := true })).map
        (fun run => run.trace.filter (fun st => decide (st.stage = Stage.HANDLE))) = some [] := by
  decide

/-- C11, amended: in every run of the default event callback at most one handler
(callback, object or built-in fallback) is invoked; none is invoked when the
control flag is false after preprocessing; and when the control flag is true
after preprocessing and a handler resolves for the path, exactly that one is
invoked. -/
theorem at_most_one_handler (s : HttpServer) (req : qttp.request)
    (resp : Option qttp.response) (run : Run)
    (hrun : s.defaultEventCallback (some req) resp = some run) :
    (run.trace.filter (fun st => decide (st.stage = Stage.HANDLE))).length ≤ 1 ∧
      ((s.preData (HttpData.create (some req) resp)).controlFlag = false →
        run.trace.filter (fun st => decide (st.stage = Stage.HANDLE)) = []) ∧
      ((s.preData (HttpData.create (some req) resp)).controlFlag = true →
        ∀ st, s.handlerStep req.path = some st →
          run.trace.filter (fun st => decide (st.stage = Stage.HANDLE)) = [st]) := by
  obtain ⟨r, hr, rfl⟩ := s.defaultEventCallback_some req resp run hrun
  have hcases := handle_filter_finalize s req.path _ r hr rfl
  refine ⟨?_, ?_, ?_⟩
  · rcases hcases with h | ⟨st, _, h⟩ <;> simp [h]
  · intro hflag
    obtain ⟨r1, hr1, ht⟩ := s.dispatch_abort req.path
      { data := HttpData.create (some req) resp, trace := [] } hflag
    rw [hr] at hr1
    cases hr1
    rw [finalize_eq]
    rcases ht with ht | ht
    · rw [ht]
      simpa using filter_handle_trace s [] _ [] [] (Or.inl rfl) (Or.inl rfl) (by simp)
        (finalizeSteps_stage r.data)
    · rw [ht]
      simpa using filter_handle_trace s [] _ s.preSteps [] (Or.inr rfl) (Or.inl rfl) (by simp)
        (finalizeSteps_stage r.data)
  · intro hflag st hst
    have hmem : st ∈ (finalize r).trace.filter (fun st => decide (st.stage = Stage.HANDLE)) := by
      rw [List.mem_filter]
      refine ⟨?_, by simp [s.handlerStep_stage req.path st hst]⟩
      rw [finalize_eq]
      exact List.mem_append_left _ (s.dispatch_handler_mem req.path _ r hr hflag st hst)
    rcases hcases with h | ⟨st1, hst1, h⟩
    · rw [h] at hmem
      cases hmem
    · rw [hst] at hst1
      cases hst1
      exact h

/-- C11, amended, at `serverBothForms` and a request for `/a`: the callback under
`act1` is the one handler invoked. -/
theorem at_most_one_handler_witness :
    serverBothForms.handlerStep "/a" = some (Step.actionCallback "act1") ∧
      [Step.actionCallback "act1", Step.finishResponse [("ok", QJsonValue.bool true)]].filter
        (fun st => decide (st.stage = Stage.HANDLE)) = [Step.actionCallback "act1"] :=
  ⟨by decide,
   (at_most_one_handler serverBothForms { path := "/a" } (some { writable := true })
     { data := { request := some { path := "/a" }, response := some { writable := true },
                 json := [("ok", QJsonValue.bool true)], controlFlag := true, finished := true },
       trace := [Step.actionCallback "act1", Step.finishResponse [("ok", QJsonValue.bool true)]] }
     (by decide)).2.2 (by decide) (Step.actionCallback "act1") (by decide)⟩

/-- C12 on the code: at `serverHandlerAborts` the handler sets the control flag to
false.  Routed from `/a` it is followed by no postprocessing; invoked as the
default action for `/x` it is followed by the postprocessor callback, although
the control flag is false when it returns. -/
theorem postprocessing_after_default_handler_abort :
    (markAndAbort "handled"
        (serverHandlerAborts.preData
          (HttpData.create (some { path := "/x" }) (some { writable := true })))).controlFlag
        = false ∧
      serverHandlerAborts.defaultEventCallback (some { path := "/a" }) (some { writable := true }) =
        some { data := { request := some { path := "/a" }, response := some { writable := true },
                         json := [("handled", QJsonValue.bool true)], controlFlag := false,
                         finished := true },
               trace := [Step.actionCallback "act1",
                         Step.finishResponse [("handled", QJsonValue.bool true)]] } ∧
      serverHandlerAborts.defaultEventCallback (some { path := "/x" }) (some { writable := true }) =
        some { data := { request := some { path := "/x" }, response := some { writable := true },
                         json := [("handled", QJsonValue.bool true), ("q1", QJsonValue.bool true)],
                         controlFlag := false, finished := true },
               trace := [Step.actionCallback "", Step.postprocessor 0,
                         Step.finishResponse
                           [("handled", QJsonValue.bool true), ("q1", QJsonValue.bool true)]] } := by
  decide

/-- C14: with no preprocessor, processor or postprocessor registered, a path routed
to an action name that has a callback ends with the payload the callback
produced from the fresh context (empty payload, control flag true), the callback
being the only invocation before the last statement; when that payload is not
empty and the callback did not mark the response finished, `finishResponse` is
called exactly once, with that payload. -/
theorem routed_callback_scenario (s : HttpServer) (req : qttp.request)
    (resp : Option qttp.response) (name : String) (cb : Callback)
    (hpre : s.m_Preprocessors = []) (hproc : s.m_Processors = [])
    (hpost : s.m_Postprocessors = [])
    (hroute : s.m_Routes.find req.path = some name)
    (hcb : s.m_ActionCallbacks.find name = some cb) :
    (HttpData.create (some req) resp).json = [] ∧
      (HttpData.create (some req) resp).controlFlag = true ∧
      ∃ run, s.defaultEventCallback (some req) resp = some run ∧
        run.data.json = (cb (HttpData.create (some req) resp)).json ∧
        run.trace = Step.actionCallback name ::
          finalizeSteps (cb (HttpData.create (some req) resp)) ∧
        ((cb (HttpData.create (some req) resp)).json ≠ [] →
          (cb (HttpData.create (some req) resp)).finished = false →
          run.trace.countP Step.isFinishResponse = 1 ∧
            Step.finishResponse (cb (HttpData.create (some req) resp)).json ∈ run.trace) := by
  refine ⟨rfl, rfl, ?_⟩
  have hpreData : ∀ d, s.preData d = d := by
    intro d; simp [HttpServer.preData, hpre, hproc]
  have hpostData : ∀ d, s.postData d = d := by
    intro d; simp [HttpServer.postData, hpost, hproc]
  have hpreSteps : s.preSteps = [] := by
    simp [HttpServer.preSteps, hpre, hproc, preprocessSteps]
  have hpostSteps : s.postSteps = [] := by
    simp [HttpServer.postSteps, hpost, hproc, postprocessSteps]
  have hd : s.dispatch req.path { data := HttpData.create (some req) resp, trace := [] } =
      some { data := cb (HttpData.create (some req) resp),
             trace := [Step.actionCallback name] } := by
    unfold HttpServer.dispatch
    simp only [hroute, hcb, HttpServer.performPreprocessing_eq,
      HttpServer.performPostprocessing_eq, hpreData, hpostData, hpreSteps, hpostSteps,
      HttpData.getControlFlag, Run.invoke, List.append_nil, List.nil_append]
    have hinit : (HttpData.create (some req) resp).controlFlag = true := rfl
    simp only [hinit, if_true]
    split <;> rfl
  refine ⟨finalize { data := cb (HttpData.create (some req) resp),
                     trace := [Step.actionCallback name] }, ?_, finalize_json _, ?_, ?_⟩
  · unfold HttpServer.defaultEventCallback
    simp only [hd]
  · rw [finalize_eq]
    rfl
  · intro hj hf
    rw [finalize_eq]
    simp only [List.nil_append, List.singleton_append, finalizeSteps_eq, hj, hf, ne_eq,
      not_false_eq_true, and_self, if_true]
    constructor
    · split <;> simp [Step.isFinishResponse]
    · simp

/-- C14 at the scenario of the specification: route `/a` to `act1`, callback sets
`ok` to `true`, final body `{"ok": true}`, written once. -/
theorem routed_callback_scenario_witness :
    serverScenario.defaultEventCallback (some { path := "/a" }) (some { writable := true }) =
        some { data := { request := some { path := "/a" }, response := some { writable := true },
                         json := [("ok", QJsonValue.bool true)], controlFlag := true,
                         finished := true },
               trace := [Step.actionCallback "act1",
                         Step.finishResponse [("ok", QJsonValue.bool true)]] } ∧
      (HttpData.create (some ({ path := "/a" } : qttp.request))
          (some ({ writable := true } : qttp.response))).json = [] ∧
      (HttpData.create (some ({ path := "/a" } : qttp.request))
          (some ({ writable := true } : qttp.response))).controlFlag = true ∧
      ∃ run, serverScenario.defaultEventCallback (some { path := "/a" })
          (some { writable := true }) = some run ∧
        run.data.json =
          (markKey "ok" (HttpData.create (some { path := "/a" }) (some { writable := true }))).json ∧
        run.trace = Step.actionCallback "act1" ::
          finalizeSteps
            (markKey "ok" (HttpData.create (some { path := "/a" }) (some { writable := true }))) ∧
        ((markKey "ok"
            (HttpData.create (some { path := "/a" }) (some { writable := true }))).json ≠ [] →
          (markKey "ok"
            (HttpData.create (some { path := "/a" }) (some { writable := true }))).finished = false →
          run.trace.countP Step.isFinishResponse = 1 ∧
            Step.finishResponse (markKey "ok"
              (HttpData.create (some { path := "/a" }) (some { writable := true }))).json ∈
                run.trace) :=
  ⟨by decide,
   routed_callback_scenario serverScenario { path := "/a" } (some { writable := true })
     "act1" (markKey "ok") rfl rfl rfl rfl rfl⟩

/-- C15: when the path has a route but the routed action name has neither a
callback nor a non-null object, the default event callback returns without any
invocation at all: no preprocessing, no handler of any kind (routed, default or
built-in fallback), no postprocessing and no `finishResponse`; the context is
left as created. -/
theorem dangling_route_no_handler (s : HttpServer) (req : qttp.request)
    (resp : Option qttp.response) (name : String)
    (hroute : s.m_Routes.find req.path = some name)
    (hcb : s.m_ActionCallbacks.find name = none)
    (hobj : s.m_Actions.find name = none ∨ s.m_Actions.find name = some none) :
    s.defaultEventCallback (some req) resp =
      some { data := HttpData.create (some req) resp, trace := [] } := by
  have hd : s.dispatch req.path { data := HttpData.create (some req) resp, trace := [] } =
      some { data := HttpData.create (some req) resp, trace := [] } := by
    unfold HttpServer.dispatch
    rcases hobj with hobj | hobj <;> simp only [hroute, hcb, hobj]
  unfold HttpServer.defaultEventCallback
  simp only [hd]
  rfl

/-- C15 at `serverDangling` and a request for `/a`: nothing is invoked, although a
default callback is registered under `""`. -/
theorem dangling_route_no_handler_witness :
    (serverDangling.m_ActionCallbacks.find "").isSome = true ∧
      serverDangling.defaultEventCallback (some { path := "/a" }) (some { writable := true }) =
        some { data := HttpData.create (some { path := "/a" }) (some { writable := true }),
               trace := [] } :=
  ⟨by decide,
   dangling_route_no_handler serverDangling { path := "/a" } (some { writable := true }) "ghost"
     rfl rfl (Or.inl rfl)⟩

/-- C16 on the code: at `serverDangling` the route `/a` names an action without
handler and a default callback is registered under `""`.  The request for `/a`
invokes nothing and leaves the payload empty and the response unfinished; the
request for the unrouted `/x` invokes the default callback. -/
theorem dangling_route_not_default_handled :
    serverDangling.m_Routes.find "/a" = some "ghost" ∧
      (serverDangling.m_ActionCallbacks.find "ghost").isNone = true ∧
      (serverDangling.m_Actions.find "ghost").isNone = true ∧
      serverDangling.defaultEventCallback (some { path := "/a" }) (some { writable := true }) =
        some { data := { request := some { path := "/a" }, response := some { writable := true },
                         json := [], controlFlag := true, finished := false },
               trace := [] } ∧
      serverDangling.defaultEventCallback (some { path := "/x" }) (some { writable := true }) =
        some { data := { request := some { path := "/x" }, response := some { writable := true },
                         json := [("default", QJsonValue.bool true)], controlFlag := true,
                         finished := true },
               trace := [Step.actionCallback "",
                         Step.finishResponse [("default", QJsonValue.bool true)]] } := by
  refine ⟨by decide, by decide, by decide, by decide, by decide⟩

/-- C13: `addProcessor` called with a null processor returns false and leaves the
server unchanged; called with a non-null processor it returns true and appends
it at the end of the processor list, leaving the rest of the server unchanged.
Hence after any sequence of registration calls on a new server the processor
list has no null entry and holds the non-null processors that were added, in
the order of the calls. -/
theorem addProcessor_appends (s : HttpServer) (p : Processor) (calls : List Registration)
    (s1 : HttpServer) (hreach : ({} : HttpServer).registerAll calls = some s1) :
    s.addProcessor none = (false, s) ∧
      s.addProcessor (some p) = (true, { s with m_Processors := s.m_Processors ++ [some p] }) ∧
      (∀ q ∈ s1.m_Processors, q.isSome = true) ∧
      s1.m_Processors = calls.filterMap Registration.processor := by
  have hlist : s1.m_Processors = calls.filterMap Registration.processor := by
    simpa using HttpServer.registerAll_m_Processors calls {} s1 hreach
  refine ⟨rfl, rfl, ?_, hlist⟩
  intro q hq
  rw [hlist, List.mem_filterMap] at hq
  obtain ⟨call, _, hcall⟩ := hq
  exact call.processor_isSome q hcall

/-- C13 at `callsTwoProcessors` made on a new server: the null processor is
rejected and the list holds the two non-null processors in the order of the
calls. -/
theorem addProcessor_appends_witness :
    ({} : HttpServer).registerAll callsTwoProcessors = some serverTwoProcessors ∧
      (serverChain.addProcessor none).1 = false ∧
      (serverTwoProcessors.performPreprocessing
        { data := HttpData.create none none, trace := [] }).trace =
        [Step.preprocess 0, Step.preprocess 1] ∧
      (∀ q ∈ serverTwoProcessors.m_Processors, q.isSome = true) ∧
      serverTwoProcessors.m_Processors = callsTwoProcessors.filterMap Registration.processor :=
  ⟨rfl, rfl, by decide,
   (addProcessor_appends serverChain { preprocess := markKey "p3", postprocess := markKey "x3" }
     callsTwoProcessors serverTwoProcessors rfl).2.2⟩

/-- C20: when every `addAction` call of a sequence of registration calls on a new
server passes a non-null action, the calls succeed, every entry of `m_Actions`
in the resulting server is non-null, and the default event callback
dereferences no null action for any request: it returns a run. -/
theorem default_action_never_null (calls : List Registration)
    (hcalls : ∀ action, Registration.addAction action ∈ calls → action.isSome = true) :
    ∃ s1, ({} : HttpServer).registerAll calls = some s1 ∧
      (∀ name entry, s1.m_Actions.find name = some entry → entry.isSome = true) ∧
      ∀ (req : qttp.request) (resp : Option qttp.response),
        ∃ run, s1.defaultEventCallback (some req) resp = some run := by
  obtain ⟨s1, h1, hinv⟩ := HttpServer.registerAll_m_Actions calls {}
    (by intro e he; cases he) hcalls
  refine ⟨s1, h1, ?_, ?_⟩
  · intro name entry hfind
    exact hinv (name, entry) (StdMap.find_mem _ _ _ hfind)
  · intro req resp
    obtain ⟨r, hr⟩ := s1.dispatch_isSome req.path
      { data := HttpData.create (some req) resp, trace := [] } hinv
    refine ⟨finalize r, ?_⟩
    unfold HttpServer.defaultEventCallback
    simp only [hr]

/-- C20 at `callsDefaultObject`: the default object action registered under `""`
is non-null and is what a request for the unrouted `/x` invokes. -/
theorem default_action_never_null_witness :
    ((({} : HttpServer).registerAll callsDefaultObject).bind
        (fun s1 => s1.defaultEventCallback (some { path := "/x" }) none)).map
        (fun run => run.trace) =
      some [Step.onAction "", Step.postprocessor 0,
            Step.finishResponse [("default", QJsonValue.bool true), ("q1", QJsonValue.bool true)],
            Step.logWarn] ∧
      ∃ s1, ({} : HttpServer).registerAll callsDefaultObject = some s1 ∧
        (∀ name entry, s1.m_Actions.find name = some entry → entry.isSome = true) ∧
        ∀ (req : qttp.request) (resp : Option qttp.response),
          ∃ run, s1.defaultEventCallback (some req) resp = some run :=
  ⟨by decide,
   default_action_never_null callsDefaultObject (by
     intro action h
     simp only [callsDefaultObject, List.mem_cons, Registration.addAction.injEq,
       List.mem_singleton, List.mem_nil_iff, or_false] at h
     rcases h with h | h
     · rw [h]; rfl
     · cases h)⟩

/-- C17 on the code: an `HttpEvent` whose two handles are null is not dropped.
`eventFilter` logs the warning and calls the installed callback with the null
handles: a callback that ignores them is invoked once, and the default event
callback dereferences the null request.  With both handles present the callback
is invoked once with them, without warning. -/
theorem eventFilter_forwards_null_handles :
    (({} : HttpServer).setEventCallback ignoreHandles).eventFilter
        (some (httpEventOf none none)) =
        some { result := true, warned := true,
               calls := [(none, none, { data := HttpData.create none none, trace := [] })] } ∧
      ({} : HttpServer).eventFilter (some (httpEventOf none none)) = none ∧
      serverScenario.eventFilter
        (some (httpEventOf (some { path := "/a" }) (some { writable := true }))) =
        some { result := true, warned := false,
               calls := [(some { path := "/a" }, some { writable := true },
                 { data := { request := some { path := "/a" },
                             response := some { writable := true },
                             json := [("ok", QJsonValue.bool true)], controlFlag := true,
                             finished := true },
                   trace := [Step.actionCallback "act1",
                             Step.finishResponse [("ok", QJsonValue.bool true)]] })] } := by
  refine ⟨by decide, by decide, by decide⟩

/-- C18: `performPreprocessing` and `performPostprocessing` invoke every registered
step whatever the context holds: the invocations they add to a run are fixed by
the server alone, as many as there are callbacks of the stage plus non-null
processors, and they are the same when the control flag of the incoming context
is false. -/
theorem chain_runs_every_step (s : HttpServer) (r : Run) (flag : Bool) :
    ((s.performPreprocessing r).trace = r.trace ++ s.preSteps ∧
        s.preSteps.length =
          s.m_Preprocessors.length + (s.m_Processors.filter Option.isSome).length ∧
        (s.performPreprocessing
          { r with data := { r.data with controlFlag := flag } }).trace =
          (s.performPreprocessing r).trace) ∧
      ((s.performPostprocessing r).trace = r.trace ++ s.postSteps ∧
        s.postSteps.length =
          (s.m_Processors.filter Option.isSome).length + s.m_Postprocessors.length ∧
        (s.performPostprocessing
          { r with data := { r.data with controlFlag := flag } }).trace =
          (s.performPostprocessing r).trace) := by
  refine ⟨⟨?_, ?_, ?_⟩, ⟨?_, ?_, ?_⟩⟩
  · rw [HttpServer.performPreprocessing_eq]
  · simp [HttpServer.preSteps, preprocessSteps_length]
  · rw [HttpServer.performPreprocessing_eq, HttpServer.performPreprocessing_eq]
  · rw [HttpServer.performPostprocessing_eq]
  · simp [HttpServer.postSteps, postprocessSteps_length]
  · rw [HttpServer.performPostprocessing_eq, HttpServer.performPostprocessing_eq]

/-- C18 at `serverAbortsEarly`: the first preprocessor callback and the first
`postprocess` set the control flag to false, and the steps after them run all
the same and leave their marks. -/
theorem chain_runs_every_step_witness :
    serverAbortsEarly.performPreprocessing
        { data := HttpData.create none none, trace := [] } =
        { data := { request := none, response := none,
                    json := [("c2", QJsonValue.bool true), ("p1", QJsonValue.bool true),
                             ("p2", QJsonValue.bool true)],
                    controlFlag := false, finished := false },
          trace := [Step.preprocessor 0, Step.preprocessor 1, Step.preprocess 0,
                    Step.preprocess 2] } ∧
      serverAbortsEarly.performPostprocessing
        { data := HttpData.create none none, trace := [] } =
        { data := { request := none, response := none,
                    json := [("q1", QJsonValue.bool true), ("x1", QJsonValue.bool true)],
                    controlFlag := false, finished := false },
          trace := [Step.postprocess 2, Step.postprocess 0, Step.postprocessor 0] } ∧
      serverAbortsEarly.preSteps.length =
        serverAbortsEarly.m_Preprocessors.length +
          (serverAbortsEarly.m_Processors.filter Option.isSome).length :=
  ⟨by decide, by decide,
   (chain_runs_every_step serverAbortsEarly
     { data := HttpData.create none none, trace := [] } false).1.2.1⟩

/-- C19: the invocations of a run of the default event callback are ordered by
stage, PREPROCESS, HANDLE, POSTPROCESS, FINALIZE.  They are those of
`performPreprocessing` (or none), then at most one handler, then those of
`performPostprocessing` (or none), then those of the last statement, with at
most one `finishResponse`; a handler is invoked only after the whole of
preprocessing, and postprocessing only after preprocessing and a handler. -/
theorem stage_order (s : HttpServer) (req : qttp.request) (resp : Option qttp.response)
    (run : Run) (hrun : s.defaultEventCallback (some req) resp = some run) :
    run.trace.Pairwise (fun a b => a.stage.rank ≤ b.stage.rank) ∧
      ∃ pre hs post fin, run.trace = pre ++ hs ++ post ++ fin ∧
        (pre = [] ∨ pre = s.preSteps) ∧
        (hs = [] ∨ ∃ st, st.stage = Stage.HANDLE ∧ hs = [st]) ∧
        (post = [] ∨ post = s.postSteps) ∧
        (∀ st ∈ fin, st.stage = Stage.FINALIZE) ∧
        fin.countP Step.isFinishResponse ≤ 1 ∧
        (hs ≠ [] → pre = s.preSteps) ∧
        (post ≠ [] → pre = s.preSteps ∧ hs ≠ []) := by
  obtain ⟨r, hr, rfl⟩ := s.defaultEventCallback_some req resp run hrun
  have hfin := finalizeSteps_stage r.data
  have hcount : (finalizeSteps r.data).countP Step.isFinishResponse ≤ 1 := by
    rw [finalizeSteps_eq]
    split
    · split <;> simp [Step.isFinishResponse]
    · simp
  have hparts : ∃ pre hs post, r.trace = pre ++ hs ++ post ∧
      (pre = [] ∨ pre = s.preSteps) ∧
      (hs = [] ∨ ∃ st, st.stage = Stage.HANDLE ∧ hs = [st]) ∧
      (post = [] ∨ post = s.postSteps) ∧
      (hs ≠ [] → pre = s.preSteps) ∧
      (post ≠ [] → pre = s.preSteps ∧ hs ≠ []) := by
    rcases s.dispatch_shape req.path _ r hr with ht | ht | ⟨st, hst, ht⟩ | ⟨st, hst, ht⟩
    · exact ⟨[], [], [], by simpa using ht, Or.inl rfl, Or.inl rfl, Or.inl rfl,
        fun h => absurd rfl h, fun h => absurd rfl h⟩
    · exact ⟨s.preSteps, [], [], by simpa using ht, Or.inr rfl, Or.inl rfl, Or.inl rfl,
        fun _ => rfl, fun h => absurd rfl h⟩
    · exact ⟨s.preSteps, [st], [], by simpa using ht, Or.inr rfl,
        Or.inr ⟨st, s.handlerStep_stage _ _ hst, rfl⟩, Or.inl rfl,
        fun _ => rfl, fun h => absurd rfl h⟩
    · exact ⟨s.preSteps, [st], s.postSteps, by simpa using ht, Or.inr rfl,
        Or.inr ⟨st, s.handlerStep_stage _ _ hst, rfl⟩, Or.inr rfl,
        fun _ => rfl, fun _ => ⟨rfl, by simp⟩⟩
  obtain ⟨pre, hs, post, ht, hpre, hhs, hpost, h1, h2⟩ := hparts
  have htrace : (finalize r).trace = pre ++ hs ++ post ++ finalizeSteps r.data := by
    rw [finalize_eq, ht]
  refine ⟨?_, pre, hs, post, finalizeSteps r.data, htrace, hpre, hhs, hpost, hfin, hcount, h1, h2⟩
  rw [htrace]
  apply pairwise_rank_of_parts _ _ _ _ _ _ _ hfin
  · rcases hpre with rfl | rfl
    · intro st h; cases h
    · exact s.preSteps_stage
  · rcases hhs with rfl | ⟨st, hst, rfl⟩
    · intro x h; cases h
    · intro x hx
      simp only [List.mem_singleton] at hx
      rw [hx]; exact hst
  · rcases hpost with rfl | rfl
    · intro st h; cases h
    · exact s.postSteps_stage

/-- C19 at `serverDefaultObject` and a request for `/x`: preprocessing, the default
object, postprocessing and `finishResponse`, in that order. -/
theorem stage_order_witness :
    [Step.preprocessor 0, Step.preprocess 0, Step.onAction "", Step.postprocess 0,
      Step.postprocessor 0,
      Step.finishResponse
        [("c1", QJsonValue.bool true), ("default", QJsonValue.bool true),
         ("p1", QJsonValue.bool true), ("q1", QJsonValue.bool true),
         ("x1", QJsonValue.bool true)]].Pairwise
      (fun a b => a.stage.rank ≤ b.stage.rank) :=
  (stage_order serverDefaultObject { path := "/x" } (some { writable := true })
    { data := { request := some { path := "/x" }, response := some { writable := true },
                json := [("c1", QJsonValue.bool true), ("default", QJsonValue.bool true),
                         ("p1", QJsonValue.bool true), ("q1", QJsonValue.bool true),
                         ("x1", QJsonValue.bool true)],
                controlFlag := true, finished := true },
      trace := [Step.preprocessor 0, Step.preprocess 0, Step.onAction "", Step.postprocess 0,
                Step.postprocessor 0,
                Step.finishResponse
                  [("c1", QJsonValue.bool true), ("default", QJsonValue.bool true),
                   ("p1", QJsonValue.bool true), ("q1", QJsonValue.bool true),
                   ("x1", QJsonValue.bool true)]] }
    (by decide)).1

end qttp
